import Mathlib

/-!
Verification of the two-party WebRTC signaling server
(`peertopeervideo/server/main.go`, the session-identity variant).

The Go server is embedded shallowly:

* a `Client` record mirrors the Go `Client` struct (`id`, `sessionID`,
  `room`, `disconnectedAt`, and the pending grace timer as a Boolean
  `timerArmed` flag — `disconnectTimer != nil && pending`);
* Go pointers `*Client` are identified with the client's random
  connection id (`randomID` values are unique per connection), so the
  heap of live `Client` objects is a list of records with distinct ids;
* the Go maps `Room.peers` (connection id → *Client) and
  `Room.sessions` (session id → *Client) become association lists of
  `(key, pointer)` pairs, and `Hub.rooms` an association list of
  `(name, Room)`;
* `time.Now()` is a logical clock `clock : Nat` on the server state,
  always positive, so `disconnectedAt = 0` is exactly Go's
  `disconnectedAt.IsZero()`;
* every `sendMessage` enqueue, and the moment a joiner is registered
  into both room indices, are recorded in an ordered event trace
  (per-connection delivery is FIFO over the outbound channel, so
  enqueue order is delivery order);
* the connection lifecycle of `readLoop` (join only while `c.room` is
  empty, relay of offer/answer/ice afterwards, a single disconnect at
  loop exit, a grace-timer callback that only fires while armed) is the
  operation alphabet `Op`, with `ServerState.closed` tracking
  connections whose read loop has exited.
-/

set_option maxRecDepth 8000

namespace PeerSignal

/-- Wire message, mirroring the Go `SignalMessage` struct; omitted
fields default to Go zero values. -/
structure SignalMessage where
  type : String
  room : String := ""
  sessionID : String := ""
  clientID : String := ""
  fromID : String := ""
  targetID : String := ""
  sdp : String := ""
  candidate : String := ""
  offerer : Bool := false
  status : String := ""
  error : String := ""
deriving Repr, DecidableEq

/-- The Go `Client` struct.  `timerArmed` models
`disconnectTimer != nil` with the callback still pending;
`disconnectedAt = 0` models the zero `time.Time`. -/
structure Client where
  id : String
  sessionID : String
  room : String
  disconnectedAt : Nat
  timerArmed : Bool
deriving Repr, DecidableEq

/-- The Go `Room` struct: both indices hold pointers to clients,
a pointer being identified with the client's connection id. -/
structure Room where
  peers : List (String × String)
  sessions : List (String × String)
deriving Repr, DecidableEq

/-- Whole-server state: the heap of `Client` objects, the Hub's room
map, the set of connections whose read loop has exited, and the clock
backing `time.Now()`. -/
structure ServerState where
  clients : List Client
  rooms : List (String × Room)
  closed : List String
  clock : Nat
deriving Repr, DecidableEq

/-- Observable events: a `sendMessage` enqueue onto a client's
outbound channel, and the point where `handleJoin` registers the
joiner in `room.peers` and `room.sessions`. -/
inductive Event where
  | sent (dst : String) (msg : SignalMessage)
  | registered (roomName : String) (cid : String) (sid : String)
deriving Repr, DecidableEq

/-- Go map lookup on an association list. -/
def mapLookup {α : Type} (m : List (String × α)) (k : String) : Option α :=
  match m with
  | [] => none
  | (k', v) :: rest => if k' = k then some v else mapLookup rest k

/-- Go map assignment `m[k] = v`: replace in place or append. -/
def mapInsert {α : Type} (m : List (String × α)) (k : String) (v : α) :
    List (String × α) :=
  match m with
  | [] => [(k, v)]
  | (k', v') :: rest =>
    if k' = k then (k, v) :: rest else (k', v') :: mapInsert rest k v

/-- Go `delete(m, k)`. -/
def mapErase {α : Type} (m : List (String × α)) (k : String) :
    List (String × α) :=
  match m with
  | [] => []
  | (k', v') :: rest =>
    if k' = k then rest else (k', v') :: mapErase rest k

/-- Dereference a client pointer in the heap. -/
def getClient (s : ServerState) (cid : String) : Option Client :=
  s.clients.find? (fun c => c.id = cid)

/-- Overwrite the heap object a pointer refers to (field update through
a Go pointer). -/
def setClient (s : ServerState) (c : Client) : ServerState :=
  { s with clients := s.clients.map (fun x => if x.id = c.id then c else x) }

/-- `Hub.getOrCreateRoom`. -/
def getOrCreateRoom (rooms : List (String × Room)) (id : String) :
    List (String × Room) × Room :=
  match mapLookup rooms id with
  | some room => (rooms, room)
  | none =>
    let room : Room := { peers := [], sessions := [] }
    (mapInsert rooms id room, room)

/-- `Room.otherConnectedPeer`: first peer whose map key differs from
`excludeID` and whose `disconnectedAt` is zero. -/
def otherConnectedPeer (s : ServerState) (r : Room) (excludeID : String) :
    Option Client :=
  r.peers.findSome? (fun kv =>
    if kv.1 = excludeID then none
    else
      match getClient s kv.2 with
      | some peer => if peer.disconnectedAt = 0 then some peer else none
      | none => none)

/-- The same-session eviction at the top of `Hub.handleJoin`
(lines: `if existing := room.sessions[msg.SessionID]; existing != nil`):
stop the pending grace timer and delete the prior record from both
indices.  Dereferencing the stored pointer never fails for states the
server reaches; the `none` fallbacks are dead branches. -/
def evictSession (s : ServerState) (room : Room) (sid : String) :
    ServerState × Room :=
  match mapLookup room.sessions sid with
  | none => (s, room)
  | some p =>
    match getClient s p with
    | none => (s, room)
    | some existing =>
      let s' := setClient s { existing with timerArmed := false }
      (s', { peers := mapErase room.peers existing.id,
             sessions := mapErase room.sessions existing.sessionID })

/-- The Go loop counting peers with `disconnectedAt.IsZero()`. -/
def connCount (s : ServerState) (peers : List (String × String)) : Nat :=
  (peers.filter (fun kv =>
    match getClient s kv.2 with
    | some p => p.disconnectedAt = 0
    | none => false)).length

/-- The mid-grace eviction loop of `Hub.handleJoin`: find one peer with
a non-zero disconnect timestamp, stop its timer, delete it from both
indices, and stop (`break`). -/
def evictGrace (s : ServerState) (room : Room) : ServerState × Room :=
  match room.peers.find? (fun kv =>
    match getClient s kv.2 with
    | some p => decide (p.disconnectedAt ≠ 0)
    | none => false) with
  | none => (s, room)
  | some kv =>
    match getClient s kv.2 with
    | none => (s, room)
    | some peer =>
      let s' := setClient s { peer with timerArmed := false }
      (s', { peers := mapErase room.peers kv.1,
             sessions := mapErase room.sessions peer.sessionID })

/-- The tail of `Hub.handleJoin` from `c.room = msg.Room` on: bind the
endpoint's room and session fields, enqueue the `joined` acknowledgment,
register the endpoint in both indices, then either tell it to wait or
complete the pairing (`Offerer: false` to the occupant already present,
`Offerer: true` to the joiner). -/
def registerJoin (s : ServerState) (room : Room) (c : Client)
    (msg : SignalMessage) : ServerState × List Event :=
  let c1 : Client := { c with room := msg.room, sessionID := msg.sessionID }
  let s3 := setClient s c1
  let room3 : Room :=
    { peers := mapInsert room.peers c.id c.id,
      sessions := mapInsert room.sessions msg.sessionID c.id }
  let s4 : ServerState := { s3 with rooms := mapInsert s3.rooms msg.room room3 }
  let evs : List Event :=
    [Event.sent c.id { type := "joined", room := msg.room, clientID := c.id },
     Event.registered msg.room c.id msg.sessionID]
  match otherConnectedPeer s4 room3 c.id with
  | none =>
    (s4, evs ++ [Event.sent c.id { type := "waiting", status := "waiting" }])
  | some other =>
    (s4, evs ++
      [Event.sent other.id
         { type := "peer-joined", clientID := c.id, offerer := false },
       Event.sent c.id
         { type := "peer-joined", clientID := other.id, offerer := true }])

/-- The middle of `Hub.handleJoin`: the connected-occupant count, the
`room full` rejection, and the mid-grace eviction, followed by
`registerJoin`. -/
def joinBody (s1 : ServerState) (room1 : Room) (c : Client)
    (msg : SignalMessage) : ServerState × List Event :=
  let cc := connCount s1 room1.peers
  if 2 ≤ cc then
    ({ s1 with rooms := mapInsert s1.rooms msg.room room1 },
     [Event.sent c.id { type := "error", error := "room full" }])
  else
    let sr2 :=
      if cc < 2 ∧ 2 ≤ room1.peers.length then evictGrace s1 room1
      else (s1, room1)
    registerJoin sr2.1 sr2.2 c msg

/-- `Hub.handleJoin`.  Returns the new state and the ordered trace of
events it produces.  Room mutations are threaded functionally and the
current room value written back to the Hub map at every exit, which is
observationally the in-place mutation of the Go room pointer. -/
def handleJoin (s : ServerState) (c : Client) (msg : SignalMessage) :
    ServerState × List Event :=
  if msg.room = "" then
    (s, [Event.sent c.id { type := "error", error := "room is required" }])
  else if msg.sessionID = "" then
    (s, [Event.sent c.id { type := "error", error := "sessionId is required" }])
  else
    let rr := getOrCreateRoom s.rooms msg.room
    let sr1 := evictSession { s with rooms := rr.1 } rr.2 msg.sessionID
    joinBody sr1.1 sr1.2 c msg

/-- `Hub.relay`: stamp the authoritative sender id, default the target
to the other connected peer, then deliver through the `peers` index. -/
def relay (s : ServerState) (c : Client) (msg : SignalMessage) : List Event :=
  match mapLookup s.rooms c.room with
  | none => []
  | some room =>
    let m1 := { msg with fromID := c.id }
    let m2 :=
      if m1.targetID = "" then
        match otherConnectedPeer s room c.id with
        | some other => { m1 with targetID := other.id }
        | none => m1
      else m1
    if m2.targetID = "" then []
    else
      match mapLookup room.peers m2.targetID with
      | some p => [Event.sent p m2]
      | none => []

/-- `Hub.handleDisconnect`: the `connected → disconnected` transition.
Marks the disconnect timestamp, stops any pre-existing timer, notifies
the other connected occupant with `peer-left` then `waiting`, and arms
the grace timer. -/
def handleDisconnect (s : ServerState) (c : Client) :
    ServerState × List Event :=
  match mapLookup s.rooms c.room with
  | none => (s, [])
  | some room =>
    match mapLookup room.peers c.id with
    | none => (s, [])
    | some p =>
      if p = c.id then
        let c1 : Client := { c with disconnectedAt := s.clock, timerArmed := false }
        let s1 : ServerState := { setClient s c1 with clock := s.clock + 1 }
        let ev :=
          match otherConnectedPeer s1 room c.id with
          | some other =>
            [Event.sent other.id { type := "peer-left", clientID := c.id },
             Event.sent other.id { type := "waiting", status := "waiting" }]
          | none => []
        let c2 : Client := { c1 with timerArmed := true }
        (setClient s1 c2, ev)
      else (s, [])

/-- `Hub.finalizeDisconnect`: the grace-timer callback body.  Re-checks
that the record under `clientID` still exists, still carries the same
session identity, and is still marked disconnected, then removes it
from both indices, destroying the room when it empties. -/
def finalizeDisconnect (s : ServerState)
    (roomID clientID sessionID : String) : ServerState :=
  match mapLookup s.rooms roomID with
  | none => s
  | some room =>
    match mapLookup room.peers clientID with
    | none => s
    | some p =>
      match getClient s p with
      | none => s
      | some peer =>
        if peer.sessionID = sessionID then
          if peer.disconnectedAt = 0 then s
          else
            let room' : Room :=
              { peers := mapErase room.peers clientID,
                sessions := mapErase room.sessions sessionID }
            if room'.peers.isEmpty then
              { s with rooms := mapErase s.rooms roomID }
            else
              { s with rooms := mapInsert s.rooms roomID room' }
        else s

/-- Externally triggered operations: a fresh websocket connection, an
inbound client message (dispatched by `readLoop`), the read loop
exiting, and the grace timer firing. -/
inductive Op where
  | connect (cid : String)
  | message (cid : String) (msg : SignalMessage)
  | disconnect (cid : String)
  | timerFire (cid : String)
deriving Repr, DecidableEq

/-- One step of the server.  Guards encode what the Go runtime
guarantees: connection ids are fresh, a closed connection emits no
further messages, `readLoop` only dispatches join before a room is
bound and offer/answer/ice after, disconnect happens once per
connection, and a grace timer only fires while armed. -/
def applyOp (s : ServerState) (op : Op) : ServerState × List Event :=
  match op with
  | .connect cid =>
    match getClient s cid with
    | some _ => (s, [])
    | none =>
      ({ s with clients :=
          s.clients ++ [{ id := cid, sessionID := "", room := "",
                          disconnectedAt := 0, timerArmed := false }] }, [])
  | .message cid msg =>
    match getClient s cid with
    | none => (s, [])
    | some c =>
      if s.closed.contains cid then (s, [])
      else if c.room = "" then
        if msg.type = "join" then handleJoin s c msg
        else (s, [Event.sent cid { type := "error", error := "must join first" }])
      else if msg.type = "offer" ∨ msg.type = "answer" ∨ msg.type = "ice" then
        (s, relay s c msg)
      else (s, [])
  | .disconnect cid =>
    match getClient s cid with
    | none => (s, [])
    | some c =>
      if s.closed.contains cid then (s, [])
      else
        let se := handleDisconnect s c
        ({ se.1 with closed := se.1.closed ++ [cid] }, se.2)
  | .timerFire cid =>
    match getClient s cid with
    | none => (s, [])
    | some c =>
      if c.timerArmed then
        let s' := setClient s { c with timerArmed := false }
        (finalizeDisconnect s' c.room c.id c.sessionID, [])
      else (s, [])

/-- Run a sequence of operations, concatenating the event traces. -/
def runOps (s : ServerState) (ops : List Op) : ServerState × List Event :=
  match ops with
  | [] => (s, [])
  | op :: rest =>
    let se := applyOp s op
    let se' := runOps se.1 rest
    (se'.1, se.2 ++ se'.2)

/-- The server before any connection arrives. -/
def initState : ServerState :=
  { clients := [], rooms := [], closed := [], clock := 1 }

/-! ### Association-list lemmas -/

/-- Keys of an association list. -/
def mapKeys {α : Type} (m : List (String × α)) : List String := m.map Prod.fst

/-- Go maps have pairwise-distinct keys. -/
def KeysNodup {α : Type} (m : List (String × α)) : Prop := (mapKeys m).Nodup

/-- Well-formedness of one room relative to the heap: unique keys, the
two-record cap, every peers entry keyed by the client's own connection
id and pointing at a live client bound to this room, and every sessions
entry pointing at a live client of this room whose session identity is
the entry's key and that is also present in the peers index. -/
def RoomWf (s : ServerState) (name : String) (r : Room) : Prop :=
  KeysNodup r.peers ∧ KeysNodup r.sessions ∧ r.peers.length ≤ 2 ∧
  (∀ kv ∈ r.peers, kv.1 = kv.2 ∧
    ∃ c, getClient s kv.2 = some c ∧ c.room = name) ∧
  (∀ kv ∈ r.sessions, ∃ c, getClient s kv.2 = some c ∧
    c.sessionID = kv.1 ∧ c.room = name ∧ (kv.2, kv.2) ∈ r.peers)

/-- Well-formedness of the whole server state. -/
def Wf (s : ServerState) : Prop :=
  KeysNodup s.rooms ∧ (s.clients.map Client.id).Nodup ∧ 0 < s.clock ∧
  ∀ nr ∈ s.rooms, nr.1 ≠ "" ∧ RoomWf s nr.1 nr.2

/-- Agreement of two heap views on the fields the invariant reads. -/
def coreAgrees : Option Client → Option Client → Prop
  | none, none => True
  | some a, some b => a.room = b.room ∧ a.sessionID = b.sessionID
  | _, _ => False

/-- Is this event a `peer-joined` delivery? -/
def isPeerJoined (e : Event) : Bool :=
  match e with
  | .sent _ m => m.type == "peer-joined"
  | .registered _ _ _ => false

/-- Is this event the `joined` acknowledgment delivered to `cid`? -/
def isJoinedAckTo (cid : String) (e : Event) : Bool :=
  match e with
  | .sent dst m => dst == cid && m.type == "joined"
  | .registered _ _ _ => false

/-- Is this event the registration of `cid` into the room indices? -/
def isRegEventFor (cid : String) (e : Event) : Bool :=
  match e with
  | .sent _ _ => false
  | .registered _ c _ => c == cid

/-- Claim C9 as stated: in the trace of a join, the registration of the
endpoint precedes the `joined` acknowledgment sent to it. -/
def regBeforeAck (cid : String) (ev : List Event) : Prop :=
  ∀ j, ev.findIdx? (isJoinedAckTo cid) = some j →
    ∃ i, ev.findIdx? (isRegEventFor cid) = some i ∧ i < j

theorem mapLookup_insert_self {α : Type} (m : List (String × α)) (k : String)
    (v : α) : mapLookup (mapInsert m k v) k = some v := by
  induction m with
  | nil => simp [mapInsert, mapLookup]
  | cons kv rest ih =>
    obtain ⟨k', v'⟩ := kv
    by_cases h : k' = k
    · simp [mapInsert, h, mapLookup]
    · simp only [mapInsert, h, if_false, mapLookup, ite_false]
      exact ih

theorem mapLookup_insert_ne {α : Type} {m : List (String × α)} {k k0 : String}
    (v : α) (h : k0 ≠ k) : mapLookup (mapInsert m k v) k0 = mapLookup m k0 := by
  have h' : ¬(k = k0) := fun hx => h hx.symm
  induction m with
  | nil => simp [mapInsert, mapLookup, h']
  | cons kv rest ih =>
    obtain ⟨k', v'⟩ := kv
    by_cases hk : k' = k
    · subst hk
      simp [mapInsert, mapLookup, h']
    · by_cases hk0 : k' = k0 <;>
        simp [mapInsert, mapLookup, hk, hk0, h, h', ih]

theorem mapLookup_erase_ne {α : Type} {m : List (String × α)} {k k0 : String}
    (h : k0 ≠ k) : mapLookup (mapErase m k) k0 = mapLookup m k0 := by
  induction m with
  | nil => simp [mapErase]
  | cons kv rest ih =>
    obtain ⟨k', v'⟩ := kv
    by_cases hk : k' = k
    · subst hk
      have h' : ¬(k' = k0) := fun hx => h hx.symm
      simp [mapErase, mapLookup, h']
    · have h' : ¬(k0 = k) := h
      by_cases hk0 : k' = k0 <;>
        simp [mapErase, mapLookup, hk, hk0, h', ih]

theorem mapLookup_eq_none_of_not_mem_keys {α : Type} {m : List (String × α)}
    {k : String} (h : k ∉ mapKeys m) : mapLookup m k = none := by
  induction m with
  | nil => simp [mapLookup]
  | cons kv rest ih =>
    obtain ⟨k', v'⟩ := kv
    simp only [mapKeys, List.map_cons, List.mem_cons] at h
    push_neg at h
    have hk : ¬(k' = k) := fun hx => h.1 hx.symm
    simp only [mapLookup, hk, if_false]
    exact ih h.2

theorem mem_keys_of_mapLookup_some {α : Type} {m : List (String × α)}
    {k : String} {v : α} (h : mapLookup m k = some v) : k ∈ mapKeys m := by
  induction m with
  | nil => simp [mapLookup] at h
  | cons kv rest ih =>
    obtain ⟨k', v'⟩ := kv
    simp only [mapLookup] at h
    by_cases hk : k' = k
    · subst hk
      exact List.mem_cons_self _ _
    · rw [if_neg hk] at h
      exact List.mem_cons_of_mem _ (ih h)

theorem mapLookup_mem {α : Type} {m : List (String × α)} {k : String} {v : α}
    (h : mapLookup m k = some v) : (k, v) ∈ m := by
  induction m with
  | nil => simp [mapLookup] at h
  | cons kv rest ih =>
    obtain ⟨k', v'⟩ := kv
    simp only [mapLookup] at h
    by_cases hk : k' = k
    · rw [if_pos hk] at h
      subst hk
      rw [Option.some_inj] at h
      subst h
      exact List.mem_cons_self _ _
    · rw [if_neg hk] at h
      exact List.mem_cons_of_mem _ (ih h)

theorem mapLookup_of_mem_nodup {α : Type} {m : List (String × α)} {k : String}
    {v : α} (hn : KeysNodup m) (h : (k, v) ∈ m) : mapLookup m k = some v := by
  induction m with
  | nil => simp at h
  | cons kv rest ih =>
    obtain ⟨k', v'⟩ := kv
    simp only [KeysNodup, mapKeys, List.map_cons, List.nodup_cons] at hn
    rcases List.mem_cons.mp h with h1 | h1
    · rw [Prod.mk.injEq] at h1
      obtain ⟨rfl, rfl⟩ := h1
      simp [mapLookup]
    · have hk : ¬(k' = k) := by
        intro hx
        subst hx
        exact hn.1 (List.mem_map_of_mem Prod.fst h1)
      simp only [mapLookup, hk, if_false]
      exact ih hn.2 h1

theorem mapLookup_erase_self {α : Type} {m : List (String × α)} {k : String}
    (hn : KeysNodup m) : mapLookup (mapErase m k) k = none := by
  induction m with
  | nil => simp [mapErase, mapLookup]
  | cons kv rest ih =>
    obtain ⟨k', v'⟩ := kv
    simp only [KeysNodup, mapKeys, List.map_cons, List.nodup_cons] at hn
    by_cases hk : k' = k
    · simp only [mapErase, hk, if_true]
      exact mapLookup_eq_none_of_not_mem_keys (hk ▸ hn.1)
    · simp only [mapErase, hk, if_false, mapLookup, ite_false]
      exact ih hn.2

theorem mem_of_mem_erase {α : Type} {m : List (String × α)} {k : String}
    {x : String × α} (h : x ∈ mapErase m k) : x ∈ m := by
  induction m with
  | nil => simp [mapErase] at h
  | cons kv rest ih =>
    by_cases hk : kv.1 = k
    · simp only [mapErase, hk, if_true] at h
      exact List.mem_cons_of_mem _ h
    · simp only [mapErase, hk, if_false] at h
      rcases List.mem_cons.mp h with h1 | h1
      · exact h1 ▸ List.mem_cons_self _ _
      · exact List.mem_cons_of_mem _ (ih h1)

theorem mem_erase_of_ne {α : Type} {m : List (String × α)} {k : String}
    {x : String × α} (h : x ∈ m) (hne : x.1 ≠ k) : x ∈ mapErase m k := by
  induction m with
  | nil => simp at h
  | cons kv rest ih =>
    rcases List.mem_cons.mp h with h1 | h1
    · have : kv.1 ≠ k := h1 ▸ hne
      simp only [mapErase, this, if_false]
      exact h1 ▸ List.mem_cons_self _ _
    · by_cases hk : kv.1 = k
      · simp only [mapErase, hk, if_true]
        exact h1
      · simp only [mapErase, hk, if_false]
        exact List.mem_cons_of_mem _ (ih h1)

theorem mem_of_mem_insert {α : Type} {m : List (String × α)} {k : String}
    {v : α} {x : String × α} (h : x ∈ mapInsert m k v) :
    x = (k, v) ∨ x ∈ m := by
  induction m with
  | nil => simpa [mapInsert] using h
  | cons kv rest ih =>
    by_cases hk : kv.1 = k
    · simp only [mapInsert, hk, if_true] at h
      rcases List.mem_cons.mp h with h1 | h1
      · exact Or.inl h1
      · exact Or.inr (List.mem_cons_of_mem _ h1)
    · simp only [mapInsert, hk, if_false] at h
      rcases List.mem_cons.mp h with h1 | h1
      · exact Or.inr (h1 ▸ List.mem_cons_self _ _)
      · rcases ih h1 with h2 | h2
        · exact Or.inl h2
        · exact Or.inr (List.mem_cons_of_mem _ h2)

theorem mem_insert_self {α : Type} (m : List (String × α)) (k : String)
    (v : α) : (k, v) ∈ mapInsert m k v := by
  induction m with
  | nil => simp [mapInsert]
  | cons kv rest ih =>
    by_cases hk : kv.1 = k
    · simp [mapInsert, hk]
    · simp only [mapInsert, hk, if_false]
      exact List.mem_cons_of_mem _ ih

theorem mem_insert_of_ne {α : Type} {m : List (String × α)} {k : String}
    {v : α} {x : String × α} (h : x ∈ m) (hne : x.1 ≠ k) :
    x ∈ mapInsert m k v := by
  induction m with
  | nil => simp at h
  | cons kv rest ih =>
    by_cases hk : kv.1 = k
    · simp only [mapInsert, hk, if_true]
      rcases List.mem_cons.mp h with h1 | h1
      · exact absurd (h1 ▸ hk : x.1 = k) hne
      · exact List.mem_cons_of_mem _ h1
    · simp only [mapInsert, hk, if_false]
      rcases List.mem_cons.mp h with h1 | h1
      · exact h1 ▸ List.mem_cons_self _ _
      · exact List.mem_cons_of_mem _ (ih h1)

theorem mem_keys_insert {α : Type} {m : List (String × α)} {k k0 : String}
    {v : α} (h : k0 ∈ mapKeys (mapInsert m k v)) :
    k0 = k ∨ k0 ∈ mapKeys m := by
  rcases List.mem_map.mp h with ⟨x, hx, hid⟩
  rcases mem_of_mem_insert hx with h1 | h1
  · left
    rw [← hid, h1]
  · right
    exact hid ▸ List.mem_map_of_mem Prod.fst h1

theorem keysNodup_insert {α : Type} {m : List (String × α)} {k : String}
    (v : α) (hn : KeysNodup m) : KeysNodup (mapInsert m k v) := by
  induction m with
  | nil => simp [mapInsert, KeysNodup, mapKeys]
  | cons kv rest ih =>
    simp only [KeysNodup, mapKeys, List.map_cons, List.nodup_cons] at hn
    by_cases hk : kv.1 = k
    · simp only [mapInsert, hk, if_true, KeysNodup, mapKeys, List.map_cons,
        List.nodup_cons]
      exact ⟨hk ▸ hn.1, hn.2⟩
    · simp only [mapInsert, hk, if_false, KeysNodup, mapKeys, List.map_cons,
        List.nodup_cons]
      refine ⟨fun hmem => ?_, ih hn.2⟩
      rcases mem_keys_insert hmem with h1 | h1
      · exact hk h1
      · exact hn.1 h1

theorem mem_keys_erase {α : Type} {m : List (String × α)} {k k0 : String}
    (h : k0 ∈ mapKeys (mapErase m k)) : k0 ∈ mapKeys m := by
  rcases List.mem_map.mp h with ⟨x, hx, hid⟩
  exact hid ▸ List.mem_map_of_mem Prod.fst (mem_of_mem_erase hx)

theorem keysNodup_erase {α : Type} {m : List (String × α)} (k : String)
    (hn : KeysNodup m) : KeysNodup (mapErase m k) := by
  induction m with
  | nil => simp [mapErase, KeysNodup, mapKeys]
  | cons kv rest ih =>
    simp only [KeysNodup, mapKeys, List.map_cons, List.nodup_cons] at hn
    by_cases hk : kv.1 = k
    · simp only [mapErase, hk, if_true]
      exact hn.2
    · simp only [mapErase, hk, if_false, KeysNodup, mapKeys, List.map_cons,
        List.nodup_cons]
      exact ⟨fun hmem => hn.1 (mem_keys_erase hmem), ih hn.2⟩

theorem length_erase_le {α : Type} (m : List (String × α)) (k : String) :
    (mapErase m k).length ≤ m.length := by
  induction m with
  | nil => simp [mapErase]
  | cons kv rest ih =>
    by_cases hk : kv.1 = k
    · simp only [mapErase, hk, if_true, List.length_cons]
      omega
    · simp only [mapErase, hk, if_false, List.length_cons]
      omega

theorem length_erase_of_mem_keys {α : Type} {m : List (String × α)}
    {k : String} (h : k ∈ mapKeys m) :
    (mapErase m k).length + 1 = m.length := by
  induction m with
  | nil => simp [mapKeys] at h
  | cons kv rest ih =>
    by_cases hk : kv.1 = k
    · simp [mapErase, hk]
    · have hsplit : k = kv.1 ∨ k ∈ mapKeys rest := by
        rw [mapKeys, List.map_cons] at h
        exact List.mem_cons.mp h
      have hr : k ∈ mapKeys rest := by
        rcases hsplit with h1 | h1
        · exact absurd h1.symm hk
        · exact h1
      simp only [mapErase, hk, if_false, List.length_cons]
      rw [← ih hr]

theorem length_insert_le {α : Type} (m : List (String × α)) (k : String)
    (v : α) : (mapInsert m k v).length ≤ m.length + 1 := by
  induction m with
  | nil => simp [mapInsert]
  | cons kv rest ih =>
    by_cases hk : kv.1 = k
    · simp [mapInsert, hk]
    · simp only [mapInsert, hk, if_false, List.length_cons]
      omega

theorem mapInsert_self_of_lookup {α : Type} {m : List (String × α)}
    {k : String} {v : α} (h : mapLookup m k = some v) :
    mapInsert m k v = m := by
  induction m with
  | nil => simp [mapLookup] at h
  | cons kv rest ih =>
    obtain ⟨k', v'⟩ := kv
    simp only [mapLookup] at h
    by_cases hk : k' = k
    · rw [if_pos hk] at h
      rw [Option.some_inj] at h
      simp [mapInsert, hk, h]
    · rw [if_neg hk] at h
      simp [mapInsert, hk, ih h]

/-! ### Heap lemmas -/

theorem getClient_id {s : ServerState} {cid : String} {c : Client}
    (h : getClient s cid = some c) : c.id = cid := by
  have h2 := List.find?_some h
  simpa using h2

theorem getClient_mem {s : ServerState} {cid : String} {c : Client}
    (h : getClient s cid = some c) : c ∈ s.clients :=
  List.mem_of_find?_eq_some h

theorem getClient_setClient_ne {s : ServerState} {c : Client} {cid : String}
    (h : cid ≠ c.id) : getClient (setClient s c) cid = getClient s cid := by
  obtain ⟨cls, rms, cld, clk⟩ := s
  simp only [getClient, setClient]
  induction cls with
  | nil => rfl
  | cons x rest ih =>
    simp only [List.map_cons]
    by_cases hx : x.id = c.id
    · rw [if_pos hx]
      rw [List.find?_cons_of_neg _
            (by simpa using fun he : c.id = cid => h he.symm),
          List.find?_cons_of_neg _
            (by simpa using fun he : x.id = cid => h (hx.symm.trans he).symm)]
      exact ih
    · rw [if_neg hx]
      by_cases hc : x.id = cid
      · rw [List.find?_cons_of_pos _ (by simpa using hc),
            List.find?_cons_of_pos _ (by simpa using hc)]
      · rw [List.find?_cons_of_neg _ (by simpa using hc),
            List.find?_cons_of_neg _ (by simpa using hc)]
        exact ih

theorem getClient_setClient_self {s : ServerState} {cid : String}
    {c cNew : Client} (h : getClient s cid = some c) (hid : cNew.id = cid) :
    getClient (setClient s cNew) cid = some cNew := by
  obtain ⟨cls, rms, cld, clk⟩ := s
  simp only [getClient, setClient] at h ⊢
  induction cls with
  | nil => simp [List.find?] at h
  | cons x rest ih =>
    simp only [List.map_cons]
    by_cases hx : x.id = cid
    · rw [if_pos (hx.trans hid.symm)]
      exact List.find?_cons_of_pos _ (by simpa using hid)
    · rw [List.find?_cons_of_neg _ (by simpa using hx)] at h
      rw [if_neg (fun hxn : x.id = cNew.id => hx (hxn.trans hid))]
      rw [List.find?_cons_of_neg _ (by simpa using hx)]
      exact ih h

theorem clientIds_setClient (s : ServerState) (c : Client) :
    (setClient s c).clients.map Client.id = s.clients.map Client.id := by
  obtain ⟨cls, rms, cld, clk⟩ := s
  simp only [setClient]
  induction cls with
  | nil => rfl
  | cons x rest ih =>
    by_cases hx : x.id = c.id
    · simp only [List.map_cons, if_pos hx, ih]
      rw [hx]
    · simp only [List.map_cons, if_neg hx, ih]

theorem getClient_append_of_isSome {s : ServerState} {c : Client}
    {cid : String} (h : (getClient s cid).isSome) :
    getClient { s with clients := s.clients ++ [c] } cid = getClient s cid := by
  simp only [getClient] at h ⊢
  rw [List.find?_append]
  obtain ⟨v, hv⟩ := Option.isSome_iff_exists.mp h
  simp [hv]

theorem not_mem_ids_of_getClient_none {s : ServerState} {cid : String}
    (h : getClient s cid = none) : cid ∉ s.clients.map Client.id := by
  intro hmem
  rcases List.mem_map.mp hmem with ⟨x, hx, hid⟩
  have := List.find?_eq_none.mp h x hx
  simp [hid] at this

/-! ### The reachable-state invariant -/

theorem roomWf_clients_only {s s' : ServerState} (h : s'.clients = s.clients)
    {name : String} {r : Room} (hw : RoomWf s name r) : RoomWf s' name r := by
  unfold RoomWf getClient at hw ⊢
  rw [h]
  exact hw

theorem roomWf_mono_heap {s s' : ServerState}
    (h : ∀ cid, (getClient s cid).isSome → getClient s' cid = getClient s cid)
    {name : String} {r : Room} (hw : RoomWf s name r) : RoomWf s' name r := by
  obtain ⟨h1, h2, h3, h4, h5⟩ := hw
  refine ⟨h1, h2, h3, ?_, ?_⟩
  · intro kv hkv
    obtain ⟨hkv1, c, hc, hcr⟩ := h4 kv hkv
    exact ⟨hkv1, c, by rw [h kv.2 (by simp [hc])]; exact hc, hcr⟩
  · intro kv hkv
    obtain ⟨c, hc, hcs, hcr, hcp⟩ := h5 kv hkv
    exact ⟨c, by rw [h kv.2 (by simp [hc])]; exact hc, hcs, hcr, hcp⟩

theorem coreAgrees_refl (o : Option Client) : coreAgrees o o := by
  cases o <;> simp [coreAgrees]

theorem roomWf_of_coreAgrees {s s' : ServerState}
    (h : ∀ cid, coreAgrees (getClient s' cid) (getClient s cid))
    {name : String} {r : Room} (hw : RoomWf s name r) : RoomWf s' name r := by
  obtain ⟨h1, h2, h3, h4, h5⟩ := hw
  refine ⟨h1, h2, h3, ?_, ?_⟩
  · intro kv hkv
    obtain ⟨hkv1, c, hc, hcr⟩ := h4 kv hkv
    have hag := h kv.2
    rw [hc] at hag
    cases hg : getClient s' kv.2 with
    | none => rw [hg] at hag; exact absurd hag (by simp [coreAgrees])
    | some c' =>
      rw [hg] at hag
      exact ⟨hkv1, c', rfl, hag.1.trans hcr⟩
  · intro kv hkv
    obtain ⟨c, hc, hcs, hcr, hcp⟩ := h5 kv hkv
    have hag := h kv.2
    rw [hc] at hag
    cases hg : getClient s' kv.2 with
    | none => rw [hg] at hag; exact absurd hag (by simp [coreAgrees])
    | some c' =>
      rw [hg] at hag
      exact ⟨c', rfl, hag.2.trans hcs, hag.1.trans hcr, hcp⟩

theorem coreAgrees_setClient {s : ServerState} {cOld cNew : Client}
    (hold : getClient s cNew.id = some cOld)
    (hroom : cNew.room = cOld.room) (hsid : cNew.sessionID = cOld.sessionID) :
    ∀ cid, coreAgrees (getClient (setClient s cNew) cid) (getClient s cid) := by
  intro cid
  by_cases h : cid = cNew.id
  · subst h
    rw [getClient_setClient_self hold rfl, hold]
    exact ⟨hroom, hsid⟩
  · rw [getClient_setClient_ne h]
    exact coreAgrees_refl _

theorem roomWf_setClient_outsider {s : ServerState} {cOld cNew : Client}
    {name : String} (hold : getClient s cNew.id = some cOld)
    (hname : cOld.room ≠ name) {r : Room} (hw : RoomWf s name r) :
    RoomWf (setClient s cNew) name r := by
  obtain ⟨h1, h2, h3, h4, h5⟩ := hw
  refine ⟨h1, h2, h3, ?_, ?_⟩
  · intro kv hkv
    obtain ⟨hkv1, c, hc, hcr⟩ := h4 kv hkv
    have hne : kv.2 ≠ cNew.id := by
      intro hx
      rw [hx, hold] at hc
      rw [Option.some_inj] at hc
      exact hname (hc ▸ hcr)
    exact ⟨hkv1, c, by rw [getClient_setClient_ne hne]; exact hc, hcr⟩
  · intro kv hkv
    obtain ⟨c, hc, hcs, hcr, hcp⟩ := h5 kv hkv
    have hne : kv.2 ≠ cNew.id := by
      intro hx
      rw [hx, hold] at hc
      rw [Option.some_inj] at hc
      exact hname (hc ▸ hcr)
    exact ⟨c, by rw [getClient_setClient_ne hne]; exact hc, hcs, hcr, hcp⟩

theorem not_key_of_mem_erase {α : Type} {m : List (String × α)} {k : String}
    {kv : String × α} (hn : KeysNodup m) (h : kv ∈ mapErase m k) :
    kv.1 ≠ k := by
  intro hx
  subst hx
  have hlk := mapLookup_of_mem_nodup (keysNodup_erase kv.1 hn) h
  rw [mapLookup_erase_self hn] at hlk
  exact Option.noConfusion hlk

/-- Removing one record from `peers` together with one key from
`sessions` preserves room well-formedness, provided every surviving
sessions entry points away from the removed peer record. -/
theorem roomWf_evict {s : ServerState} {name : String} {room : Room}
    (hw : RoomWf s name room) {cid sid : String}
    (hcs : ∀ kv ∈ room.sessions, kv.1 ≠ sid → kv.2 ≠ cid) :
    RoomWf s name
      { peers := mapErase room.peers cid,
        sessions := mapErase room.sessions sid } := by
  obtain ⟨h1, h2, h3, h4, h5⟩ := hw
  refine ⟨keysNodup_erase _ h1, keysNodup_erase _ h2,
    le_trans (length_erase_le _ _) h3, ?_, ?_⟩
  · intro kv hkv
    exact h4 kv (mem_of_mem_erase hkv)
  · intro kv hkv
    have hmem := mem_of_mem_erase hkv
    obtain ⟨c, hc, hcs', hcr, hcp⟩ := h5 kv hmem
    have hk : kv.1 ≠ sid := not_key_of_mem_erase h2 hkv
    have hv : kv.2 ≠ cid := hcs kv hmem hk
    exact ⟨c, hc, hcs', hcr, mem_erase_of_ne hcp hv⟩

/-- Writing a well-formed room value back into the Hub map preserves
whole-state well-formedness. -/
theorem wf_insertRoom {s : ServerState} {name : String} {r : Room}
    (hwf : Wf s) (hname : name ≠ "") (hr : RoomWf s name r) :
    Wf { s with rooms := mapInsert s.rooms name r } := by
  obtain ⟨h1, h2, h3, h4⟩ := hwf
  refine ⟨keysNodup_insert _ h1, h2, h3, ?_⟩
  intro nr hnr
  rcases mem_of_mem_insert hnr with he | he
  · subst he
    exact ⟨hname, roomWf_clients_only rfl hr⟩
  · obtain ⟨ha, hb⟩ := h4 nr he
    exact ⟨ha, roomWf_clients_only rfl hb⟩

/-- Case analysis of `evictSession` under the invariant: either the
session has no record and nothing happens, or the prior record is found
and removed from both indices with its timer stopped. -/
theorem evictSession_spec {s : ServerState} {name : String} {room : Room}
    (hw : RoomWf s name room) (sid : String) :
    (mapLookup room.sessions sid = none ∧ evictSession s room sid = (s, room)) ∨
    (∃ existing, mapLookup room.sessions sid = some existing.id ∧
      getClient s existing.id = some existing ∧ existing.room = name ∧
      existing.sessionID = sid ∧ (existing.id, existing.id) ∈ room.peers ∧
      evictSession s room sid =
        (setClient s { existing with timerArmed := false },
         { peers := mapErase room.peers existing.id,
           sessions := mapErase room.sessions existing.sessionID })) := by
  cases hlk : mapLookup room.sessions sid with
  | none =>
    left
    refine ⟨rfl, ?_⟩
    unfold evictSession
    rw [hlk]
  | some p =>
    right
    obtain ⟨c, hc, hcs, hcr, hcp⟩ := hw.2.2.2.2 (sid, p) (mapLookup_mem hlk)
    have hc' : getClient s p = some c := hc
    have hcs' : c.sessionID = sid := hcs
    have hcp' : (p, p) ∈ room.peers := hcp
    have hid : c.id = p := getClient_id hc'
    subst hid
    refine ⟨c, rfl, hc', hcr, hcs', hcp', ?_⟩
    unfold evictSession
    simp only [hlk, hc']

/-- Case analysis of `evictGrace` under the invariant: either no
mid-grace record exists, or one is found and removed from both indices
with its timer stopped. -/
theorem evictGrace_spec {s : ServerState} {name : String} {room : Room}
    (hw : RoomWf s name room) :
    (room.peers.find? (fun kv =>
        match getClient s kv.2 with
        | some p => decide (p.disconnectedAt ≠ 0)
        | none => false) = none ∧ evictGrace s room = (s, room)) ∨
    (∃ kv peer, room.peers.find? (fun kv =>
        match getClient s kv.2 with
        | some p => decide (p.disconnectedAt ≠ 0)
        | none => false) = some kv ∧ kv ∈ room.peers ∧
      getClient s kv.2 = some peer ∧ peer.disconnectedAt ≠ 0 ∧
      peer.room = name ∧ kv.1 = kv.2 ∧
      evictGrace s room =
        (setClient s { peer with timerArmed := false },
         { peers := mapErase room.peers kv.1,
           sessions := mapErase room.sessions peer.sessionID })) := by
  cases hf : room.peers.find? (fun kv =>
      match getClient s kv.2 with
      | some p => decide (p.disconnectedAt ≠ 0)
      | none => false) with
  | none =>
    left
    refine ⟨rfl, ?_⟩
    unfold evictGrace
    rw [hf]
  | some kv =>
    right
    have hmem := List.mem_of_find?_eq_some hf
    have hp := List.find?_some hf
    obtain ⟨hkv1, c, hc, hcr⟩ := hw.2.2.2.1 kv hmem
    have hc2 : getClient s kv.2 = some c := hc
    rw [hc2] at hp
    refine ⟨kv, c, rfl, hmem, hc2, by simpa using hp, hcr, hkv1, ?_⟩
    unfold evictGrace
    simp only [hf, hc2]

theorem wf_setClient_core {s : ServerState} {cOld cNew : Client}
    (hwf : Wf s) (hold : getClient s cNew.id = some cOld)
    (hroom : cNew.room = cOld.room) (hsid : cNew.sessionID = cOld.sessionID) :
    Wf (setClient s cNew) := by
  obtain ⟨h1, h2, h3, h4⟩ := hwf
  refine ⟨h1, ?_, h3, ?_⟩
  · rw [clientIds_setClient]
    exact h2
  · intro nr hnr
    obtain ⟨ha, hb⟩ := h4 nr hnr
    exact ⟨ha, roomWf_of_coreAgrees (coreAgrees_setClient hold hroom hsid) hb⟩

theorem roomWf_empty (s : ServerState) (name : String) :
    RoomWf s name { peers := [], sessions := [] } := by
  refine ⟨?_, ?_, ?_, ?_, ?_⟩ <;> simp [KeysNodup, mapKeys]

/-- Both branches of `registerJoin` produce the same state. -/
theorem registerJoin_fst (s : ServerState) (room : Room) (c : Client)
    (msg : SignalMessage) :
    (registerJoin s room c msg).1 =
      { setClient s { c with room := msg.room, sessionID := msg.sessionID } with
        rooms := mapInsert
          (setClient s { c with room := msg.room, sessionID := msg.sessionID }).rooms
          msg.room
          { peers := mapInsert room.peers c.id c.id,
            sessions := mapInsert room.sessions msg.sessionID c.id } } := by
  simp only [registerJoin]
  split <;> rfl

theorem wf_registerJoin {s : ServerState} {room : Room} {c : Client}
    {msg : SignalMessage} (hwf : Wf s) (hname : msg.room ≠ "")
    (hc : getClient s c.id = some c) (hcr : c.room = "")
    (hw : RoomWf s msg.room room) (hlen : room.peers.length ≤ 1) :
    Wf (registerJoin s room c msg).1 := by
  rw [registerJoin_fst]
  have hc1 : getClient s
      ({ c with room := msg.room, sessionID := msg.sessionID } : Client).id =
      some c := hc
  have hwf3 : Wf (setClient s
      { c with room := msg.room, sessionID := msg.sessionID }) := by
    obtain ⟨h1, h2, h3, h4⟩ := hwf
    refine ⟨h1, ?_, h3, ?_⟩
    · rw [clientIds_setClient]
      exact h2
    · intro nr hnr
      obtain ⟨ha, hb⟩ := h4 nr hnr
      refine ⟨ha, roomWf_setClient_outsider hc1 ?_ hb⟩
      rw [hcr]
      exact fun h => ha h.symm
  have hgc3 : getClient (setClient s
      { c with room := msg.room, sessionID := msg.sessionID }) c.id =
      some { c with room := msg.room, sessionID := msg.sessionID } :=
    getClient_setClient_self hc rfl
  have hw3 : RoomWf (setClient s
      { c with room := msg.room, sessionID := msg.sessionID })
      msg.room room := by
    refine roomWf_setClient_outsider hc1 ?_ hw
    rw [hcr]
    exact fun h => hname h.symm
  apply wf_insertRoom hwf3 hname
  obtain ⟨hw1, hw2, hw3len, hw4, hw5⟩ := hw3
  refine ⟨keysNodup_insert _ hw1, keysNodup_insert _ hw2, ?_, ?_, ?_⟩
  · exact le_trans (length_insert_le _ _ _) (by omega)
  · intro kv hkv
    rcases mem_of_mem_insert hkv with he | he
    · subst he
      exact ⟨rfl, _, hgc3, rfl⟩
    · exact hw4 kv he
  · intro kv hkv
    rcases mem_of_mem_insert hkv with he | he
    · subst he
      exact ⟨_, hgc3, rfl, rfl, mem_insert_self _ _ _⟩
    · obtain ⟨cs, hcs1, hcs2, hcs3, hcs4⟩ := hw.2.2.2.2 kv he
      have hne : kv.2 ≠ c.id := by
        intro hx
        rw [hx, hc] at hcs1
        rw [Option.some_inj] at hcs1
        rw [← hcs1] at hcs3
        rw [hcr] at hcs3
        exact hname hcs3.symm
      obtain ⟨cs', hcs1', hcs2', hcs3', hcs4'⟩ := hw5 kv he
      exact ⟨cs', hcs1', hcs2', hcs3', mem_insert_of_ne hcs4' hne⟩

theorem wf_joinBody {s1 : ServerState} {room1 : Room} {c : Client}
    {msg : SignalMessage} (hwf : Wf s1) (hname : msg.room ≠ "")
    (hc : getClient s1 c.id = some c) (hcr : c.room = "")
    (hw : RoomWf s1 msg.room room1) :
    Wf (joinBody s1 room1 c msg).1 := by
  unfold joinBody
  by_cases hcc : 2 ≤ connCount s1 room1.peers
  · rw [if_pos hcc]
    exact wf_insertRoom hwf hname hw
  · rw [if_neg hcc]
    by_cases hg : connCount s1 room1.peers < 2 ∧ 2 ≤ room1.peers.length
    · rw [if_pos hg]
      rcases evictGrace_spec hw with ⟨hf, he⟩ |
        ⟨kv, peer, hf, hmem, hgc, hdisc, hproom, hkv1, he⟩
      · exfalso
        have hall : ∀ kv ∈ room1.peers, (fun kv =>
            match getClient s1 kv.2 with
            | some p => decide (p.disconnectedAt = 0)
            | none => false) kv = true := by
          intro kv hkv
          have hnone := List.find?_eq_none.mp hf kv hkv
          obtain ⟨_, cp, hcp, _⟩ := hw.2.2.2.1 kv hkv
          rw [hcp] at hnone
          show (match getClient s1 kv.2 with
            | some p => decide (p.disconnectedAt = 0)
            | none => false) = true
          rw [hcp]
          simpa using hnone
        have hceq : connCount s1 room1.peers = room1.peers.length := by
          unfold connCount
          exact List.filter_length_eq_length.mpr hall
        omega
      · rw [he]
        have hpid : peer.id = kv.2 := getClient_id hgc
        have hold : getClient s1
            ({ peer with timerArmed := false } : Client).id = some peer := by
          show getClient s1 peer.id = some peer
          rw [hpid]
          exact hgc
        have hcne : c.id ≠ ({ peer with timerArmed := false} : Client).id := by
          show c.id ≠ peer.id
          intro hx
          rw [hpid] at hx
          rw [hx, hgc] at hc
          rw [Option.some_inj] at hc
          rw [hc] at hproom
          rw [hcr] at hproom
          exact hname hproom.symm
        apply wf_registerJoin (wf_setClient_core hwf hold rfl rfl) hname
          (by rw [getClient_setClient_ne hcne]; exact hc) hcr
        · apply roomWf_of_coreAgrees (coreAgrees_setClient hold rfl rfl)
          apply roomWf_evict hw
          intro kv' hkv' hk1
          intro hx
          obtain ⟨cs, hcs1, hcs2, hcs3, hcs4⟩ := hw.2.2.2.2 kv' hkv'
          rw [hx, hkv1, hgc] at hcs1
          rw [Option.some_inj] at hcs1
          rw [← hcs1] at hcs2
          exact hk1 hcs2.symm
        · have hks : kv.1 ∈ mapKeys room1.peers :=
            List.mem_map_of_mem Prod.fst hmem
          have := length_erase_of_mem_keys hks
          have hle := hw.2.2.1
          show (mapErase room1.peers kv.1).length ≤ 1
          omega
    · rw [if_neg hg]
      have hA : connCount s1 room1.peers < 2 := by omega
      have hB : ¬ 2 ≤ room1.peers.length := fun hb => hg ⟨hA, hb⟩
      exact wf_registerJoin hwf hname hc hcr hw (show room1.peers.length ≤ 1 by omega)

theorem wf_handleJoin {s : ServerState} {c : Client} {msg : SignalMessage}
    (hwf : Wf s) (hc : getClient s c.id = some c) (hcr : c.room = "") :
    Wf (handleJoin s c msg).1 := by
  unfold handleJoin
  by_cases h1 : msg.room = ""
  · rw [if_pos h1]
    exact hwf
  · rw [if_neg h1]
    by_cases h2 : msg.sessionID = ""
    · rw [if_pos h2]
      exact hwf
    · rw [if_neg h2]
      cases hlk : mapLookup s.rooms msg.room with
      | some room0 =>
        have hgr : getOrCreateRoom s.rooms msg.room = (s.rooms, room0) := by
          unfold getOrCreateRoom
          rw [hlk]
        rw [hgr]
        have hw0 : RoomWf s msg.room room0 :=
          (hwf.2.2.2 (msg.room, room0) (mapLookup_mem hlk)).2
        show Wf (joinBody (evictSession s room0 msg.sessionID).1
          (evictSession s room0 msg.sessionID).2 c msg).1
        rcases evictSession_spec hw0 msg.sessionID with ⟨_, he⟩ |
          ⟨existing, hslk, hex, hexr, hexs, hexp, he⟩
        · rw [he]
          exact wf_joinBody hwf h1 hc hcr hw0
        · rw [he]
          have hold : getClient s
              ({ existing with timerArmed := false } : Client).id =
              some existing := hex
          have hcne : c.id ≠ ({ existing with timerArmed := false } : Client).id := by
            show c.id ≠ existing.id
            intro hx
            rw [hx, hex] at hc
            rw [Option.some_inj] at hc
            rw [hc] at hexr
            rw [hcr] at hexr
            exact h1 hexr.symm
          apply wf_joinBody (wf_setClient_core hwf hold rfl rfl) h1
            (by rw [getClient_setClient_ne hcne]; exact hc) hcr
          apply roomWf_of_coreAgrees (coreAgrees_setClient hold rfl rfl)
          apply roomWf_evict hw0
          intro kv' hkv' hk1
          intro hx
          obtain ⟨cs, hcs1, hcs2, hcs3, hcs4⟩ := hw0.2.2.2.2 kv' hkv'
          rw [hx, hex] at hcs1
          rw [Option.some_inj] at hcs1
          rw [← hcs1] at hcs2
          exact hk1 hcs2.symm
      | none =>
        have hgr : getOrCreateRoom s.rooms msg.room =
            (mapInsert s.rooms msg.room { peers := [], sessions := [] },
             { peers := [], sessions := [] }) := by
          unfold getOrCreateRoom
          rw [hlk]
        rw [hgr]
        have hwf0 : Wf { s with
            rooms := mapInsert s.rooms msg.room
              { peers := [], sessions := [] } } :=
          wf_insertRoom hwf h1 (roomWf_empty s msg.room)
        show Wf (joinBody { s with
            rooms := mapInsert s.rooms msg.room
              { peers := [], sessions := [] } }
          { peers := [], sessions := [] } c msg).1
        exact wf_joinBody hwf0 h1 hc hcr (roomWf_empty _ msg.room)

theorem wf_eraseRoom {s : ServerState} (hwf : Wf s) (name : String) :
    Wf { s with rooms := mapErase s.rooms name } := by
  obtain ⟨h1, h2, h3, h4⟩ := hwf
  refine ⟨keysNodup_erase _ h1, h2, h3, ?_⟩
  intro nr hnr
  obtain ⟨a, b⟩ := h4 nr (mem_of_mem_erase hnr)
  exact ⟨a, roomWf_clients_only rfl b⟩

theorem wf_handleDisconnect {s : ServerState} {c : Client} (hwf : Wf s)
    (hc : getClient s c.id = some c) : Wf (handleDisconnect s c).1 := by
  unfold handleDisconnect
  split
  · exact hwf
  · split
    · exact hwf
    · split
      · have hw1 : Wf (setClient s
            { c with disconnectedAt := s.clock, timerArmed := false }) :=
          wf_setClient_core hwf hc rfl rfl
        have hw1' : Wf { setClient s
            { c with disconnectedAt := s.clock, timerArmed := false } with
            clock := s.clock + 1 } := by
          obtain ⟨h1, h2, h3, h4⟩ := hw1
          refine ⟨h1, h2, Nat.succ_pos s.clock, ?_⟩
          intro nr hnr
          obtain ⟨a, b⟩ := h4 nr hnr
          exact ⟨a, roomWf_clients_only rfl b⟩
        have hg2 : getClient { setClient s
            { c with disconnectedAt := s.clock, timerArmed := false } with
            clock := s.clock + 1 }
            ({ c with disconnectedAt := s.clock, timerArmed := true } : Client).id =
            some { c with disconnectedAt := s.clock, timerArmed := false } :=
          getClient_setClient_self hc rfl
        exact wf_setClient_core hw1' hg2 rfl rfl
      · exact hwf

theorem wf_finalizeDisconnect {s : ServerState} (hwf : Wf s)
    (roomID clientID sessionID : String) :
    Wf (finalizeDisconnect s roomID clientID sessionID) := by
  unfold finalizeDisconnect
  split
  · exact hwf
  · rename_i room hlk
    split
    · exact hwf
    · rename_i p hpl
      split
      · exact hwf
      · rename_i peer hgc
        split
        · rename_i h1
          split
          · exact hwf
          · rename_i h2
            have hmem := mapLookup_mem hlk
            have hname : roomID ≠ "" := (hwf.2.2.2 (roomID, room) hmem).1
            have hwroom : RoomWf s roomID room := (hwf.2.2.2 (roomID, room) hmem).2
            have hw' : RoomWf s roomID
                { peers := mapErase room.peers clientID,
                  sessions := mapErase room.sessions sessionID } := by
              apply roomWf_evict hwroom
              intro kv hkv hk1 hx
              obtain ⟨cs, hcs1, hcs2, hcs3, hcs4⟩ := hwroom.2.2.2.2 kv hkv
              have hpp : (clientID, p) ∈ room.peers := mapLookup_mem hpl
              have hpeq : clientID = p := (hwroom.2.2.2.1 (clientID, p) hpp).1
              rw [hx, hpeq, hgc] at hcs1
              rw [Option.some_inj] at hcs1
              rw [← hcs1] at hcs2
              rw [h1] at hcs2
              exact hk1 hcs2.symm
            dsimp only
            split
            · exact wf_eraseRoom hwf roomID
            · exact wf_insertRoom hwf hname hw'
        · exact hwf

theorem wf_applyOp {s : ServerState} (hwf : Wf s) (op : Op) :
    Wf (applyOp s op).1 := by
  cases op with
  | connect cid =>
    unfold applyOp
    dsimp only
    cases hg : getClient s cid with
    | some c => exact hwf
    | none =>
      obtain ⟨h1, h2, h3, h4⟩ := hwf
      refine ⟨h1, ?_, h3, ?_⟩
      · show (List.map Client.id (s.clients ++
          [{ id := cid, sessionID := "", room := "",
             disconnectedAt := 0, timerArmed := false }])).Nodup
        rw [List.map_append, List.nodup_append]
        refine ⟨h2, by simp, ?_⟩
        intro a ha hb
        simp only [List.map_cons, List.map_nil, List.mem_singleton] at hb
        subst hb
        exact not_mem_ids_of_getClient_none hg ha
      · intro nr hnr
        obtain ⟨a, b⟩ := h4 nr hnr
        exact ⟨a, roomWf_mono_heap
          (fun cid' hs => getClient_append_of_isSome hs) b⟩
  | message cid msg =>
    unfold applyOp
    dsimp only
    cases hg : getClient s cid with
    | none => exact hwf
    | some c =>
      dsimp only
      by_cases hcl : s.closed.contains cid = true
      · rw [if_pos hcl]
        exact hwf
      · rw [if_neg hcl]
        by_cases hr : c.room = ""
        · rw [if_pos hr]
          by_cases ht : msg.type = "join"
          · rw [if_pos ht]
            exact wf_handleJoin hwf (by rw [getClient_id hg]; exact hg) hr
          · rw [if_neg ht]
            exact hwf
        · rw [if_neg hr]
          by_cases hty : msg.type = "offer" ∨ msg.type = "answer" ∨
              msg.type = "ice"
          · rw [if_pos hty]
            exact hwf
          · rw [if_neg hty]
            exact hwf
  | disconnect cid =>
    unfold applyOp
    dsimp only
    cases hg : getClient s cid with
    | none => exact hwf
    | some c =>
      dsimp only
      by_cases hcl : s.closed.contains cid = true
      · rw [if_pos hcl]
        exact hwf
      · rw [if_neg hcl]
        have hwd : Wf (handleDisconnect s c).1 :=
          wf_handleDisconnect hwf (by rw [getClient_id hg]; exact hg)
        obtain ⟨h1, h2, h3, h4⟩ := hwd
        exact ⟨h1, h2, h3, fun nr hnr =>
          let ab := h4 nr hnr
          ⟨ab.1, roomWf_clients_only rfl ab.2⟩⟩
  | timerFire cid =>
    unfold applyOp
    dsimp only
    cases hg : getClient s cid with
    | none => exact hwf
    | some c =>
      dsimp only
      by_cases ht : c.timerArmed = true
      · rw [if_pos ht]
        have hold : getClient s ({ c with timerArmed := false } : Client).id =
            some c := by
          show getClient s c.id = some c
          rw [getClient_id hg]
          exact hg
        exact wf_finalizeDisconnect (wf_setClient_core hwf hold rfl rfl) _ _ _
      · rw [if_neg ht]
        exact hwf

theorem wf_runOps {s : ServerState} (hwf : Wf s) (ops : List Op) :
    Wf (runOps s ops).1 := by
  induction ops generalizing s with
  | nil => exact hwf
  | cons op rest ih =>
    show Wf (runOps (applyOp s op).1 rest).1
    exact ih (wf_applyOp hwf op)

theorem wf_initState : Wf initState := by
  refine ⟨?_, ?_, ?_, ?_⟩ <;> simp [initState, KeysNodup, mapKeys, Wf]

/-- Traces of concatenated operation sequences concatenate. -/
theorem runOps_append (s : ServerState) (l1 l2 : List Op) :
    runOps s (l1 ++ l2) =
      ((runOps (runOps s l1).1 l2).1,
       (runOps s l1).2 ++ (runOps (runOps s l1).1 l2).2) := by
  induction l1 generalizing s with
  | nil => simp [runOps]
  | cons op rest ih =>
    have h := ih (applyOp s op).1
    simp only [List.cons_append, runOps]
    rw [show rest.append l2 = rest ++ l2 from rfl, h]
    simp [List.append_assoc]

/-! ### Dispatch lemmas: how `applyOp` reaches each handler -/

theorem applyOp_join {s : ServerState} {cid : String} {c : Client}
    {msg : SignalMessage} (hg : getClient s cid = some c)
    (hcl : s.closed.contains cid = false) (hcr : c.room = "")
    (ht : msg.type = "join") :
    applyOp s (Op.message cid msg) = handleJoin s c msg := by
  simp only [applyOp]
  rw [hg]
  dsimp only
  rw [if_neg (by intro hx; rw [hcl] at hx; exact Bool.noConfusion hx),
    if_pos hcr, if_pos ht]

theorem applyOp_relay {s : ServerState} {cid : String} {c : Client}
    {msg : SignalMessage} (hg : getClient s cid = some c)
    (hcl : s.closed.contains cid = false) (hcr : ¬ c.room = "")
    (ht : msg.type = "offer" ∨ msg.type = "answer" ∨ msg.type = "ice") :
    applyOp s (Op.message cid msg) = (s, relay s c msg) := by
  simp only [applyOp]
  rw [hg]
  dsimp only
  rw [if_neg (by intro hx; rw [hcl] at hx; exact Bool.noConfusion hx),
    if_neg hcr, if_pos ht]

theorem applyOp_disconnect {s : ServerState} {cid : String} {c : Client}
    (hg : getClient s cid = some c)
    (hcl : s.closed.contains cid = false) :
    applyOp s (Op.disconnect cid) =
      ({ (handleDisconnect s c).1 with
         closed := (handleDisconnect s c).1.closed ++ [cid] },
       (handleDisconnect s c).2) := by
  simp only [applyOp]
  rw [hg]
  dsimp only
  rw [if_neg (by intro hx; rw [hcl] at hx; exact Bool.noConfusion hx)]

theorem applyOp_timerFire {s : ServerState} {cid : String} {c : Client}
    (hg : getClient s cid = some c) (ht : c.timerArmed = true) :
    applyOp s (Op.timerFire cid) =
      (finalizeDisconnect (setClient s { c with timerArmed := false })
        c.room c.id c.sessionID, []) := by
  simp only [applyOp]
  rw [hg]
  dsimp only
  rw [if_pos ht]

/-! ### `otherConnectedPeer` lemmas -/

theorem findSomeConnected_spec {s : ServerState}
    {peers : List (String × String)} {ex : String} {cl : Client}
    (hkv : ∀ kv ∈ peers, kv.1 = kv.2)
    (h : peers.findSome? (fun kv =>
      if kv.1 = ex then none
      else
        match getClient s kv.2 with
        | some peer => if peer.disconnectedAt = 0 then some peer else none
        | none => none) = some cl) :
    cl.id ≠ ex ∧ cl.disconnectedAt = 0 ∧
    ∃ kv ∈ peers, kv.1 ≠ ex ∧ getClient s kv.2 = some cl := by
  induction peers with
  | nil => simp [List.findSome?] at h
  | cons kv rest ih =>
    rw [List.findSome?_cons] at h
    by_cases hx : kv.1 = ex
    · rw [if_pos hx] at h
      dsimp only at h
      obtain ⟨a, b, kv', hkv', hx', hg'⟩ :=
        ih (fun kv hm => hkv kv (List.mem_cons_of_mem _ hm)) h
      exact ⟨a, b, kv', List.mem_cons_of_mem _ hkv', hx', hg'⟩
    · rw [if_neg hx] at h
      cases hgc : getClient s kv.2 with
      | none =>
        rw [hgc] at h
        dsimp only at h
        obtain ⟨a, b, kv', hkv', hx', hg'⟩ :=
          ih (fun kv hm => hkv kv (List.mem_cons_of_mem _ hm)) h
        exact ⟨a, b, kv', List.mem_cons_of_mem _ hkv', hx', hg'⟩
      | some peer =>
        rw [hgc] at h
        dsimp only at h
        by_cases hdz : peer.disconnectedAt = 0
        · rw [if_pos hdz] at h
          dsimp only at h
          rw [Option.some_inj] at h
          refine ⟨?_, h ▸ hdz, kv, List.mem_cons_self _ _, hx, h ▸ hgc⟩
          have hid : cl.id = kv.2 := getClient_id (h ▸ hgc)
          rw [hid, ← hkv kv (List.mem_cons_self _ _)]
          exact hx
        · rw [if_neg hdz] at h
          dsimp only at h
          obtain ⟨a, b, kv', hkv', hx', hg'⟩ :=
            ih (fun kv hm => hkv kv (List.mem_cons_of_mem _ hm)) h
          exact ⟨a, b, kv', List.mem_cons_of_mem _ hkv', hx', hg'⟩

theorem otherConnectedPeer_spec {s : ServerState} {r : Room} {ex : String}
    {cl : Client} (hkv : ∀ kv ∈ r.peers, kv.1 = kv.2)
    (h : otherConnectedPeer s r ex = some cl) :
    cl.id ≠ ex ∧ cl.disconnectedAt = 0 ∧
    ∃ kv ∈ r.peers, kv.1 ≠ ex ∧ getClient s kv.2 = some cl :=
  findSomeConnected_spec hkv h

theorem findSomeConnected_setClient {s : ServerState}
    {peers : List (String × String)} {ex : String} {cNew : Client}
    (hkv : ∀ kv ∈ peers, kv.1 = kv.2) (hex : cNew.id = ex) :
    peers.findSome? (fun kv =>
      if kv.1 = ex then none
      else
        match getClient (setClient s cNew) kv.2 with
        | some peer => if peer.disconnectedAt = 0 then some peer else none
        | none => none) =
    peers.findSome? (fun kv =>
      if kv.1 = ex then none
      else
        match getClient s kv.2 with
        | some peer => if peer.disconnectedAt = 0 then some peer else none
        | none => none) := by
  induction peers with
  | nil => rfl
  | cons kv rest ih =>
    rw [List.findSome?_cons, List.findSome?_cons]
    by_cases hx : kv.1 = ex
    · rw [if_pos hx, if_pos hx]
      dsimp only
      exact ih (fun kv hm => hkv kv (List.mem_cons_of_mem _ hm))
    · rw [if_neg hx, if_neg hx]
      have hne : kv.2 ≠ cNew.id := by
        rw [hex, ← hkv kv (List.mem_cons_self _ _)]
        exact hx
      rw [getClient_setClient_ne hne]
      cases getClient s kv.2 with
      | none =>
        dsimp only
        exact ih (fun kv hm => hkv kv (List.mem_cons_of_mem _ hm))
      | some peer =>
        dsimp only
        by_cases hdz : peer.disconnectedAt = 0
        · rw [if_pos hdz]
        · rw [if_neg hdz]
          exact ih (fun kv hm => hkv kv (List.mem_cons_of_mem _ hm))

/-- Overwriting the heap record whose id equals the excluded key does
not change the other-connected-peer lookup (every entry is keyed by its
own id, and the excluded key is skipped). -/
theorem otherConnectedPeer_setClient_excl {s : ServerState} {r : Room}
    {ex : String} {cNew : Client} (hkv : ∀ kv ∈ r.peers, kv.1 = kv.2)
    (hex : cNew.id = ex) :
    otherConnectedPeer (setClient s cNew) r ex = otherConnectedPeer s r ex :=
  findSomeConnected_setClient hkv hex

/-! ### The two outcomes of `registerJoin` -/

theorem registerJoin_cases (s : ServerState) (room : Room) (c : Client)
    (msg : SignalMessage) :
    (otherConnectedPeer (registerJoin s room c msg).1
        { peers := mapInsert room.peers c.id c.id,
          sessions := mapInsert room.sessions msg.sessionID c.id } c.id =
        none ∧
      (registerJoin s room c msg).2 =
        [Event.sent c.id { type := "joined", room := msg.room, clientID := c.id },
         Event.registered msg.room c.id msg.sessionID,
         Event.sent c.id { type := "waiting", status := "waiting" }]) ∨
    (∃ other, otherConnectedPeer (registerJoin s room c msg).1
        { peers := mapInsert room.peers c.id c.id,
          sessions := mapInsert room.sessions msg.sessionID c.id } c.id =
        some other ∧
      (registerJoin s room c msg).2 =
        [Event.sent c.id { type := "joined", room := msg.room, clientID := c.id },
         Event.registered msg.room c.id msg.sessionID,
         Event.sent other.id
           { type := "peer-joined", clientID := c.id, offerer := false },
         Event.sent c.id
           { type := "peer-joined", clientID := other.id, offerer := true }]) := by
  rw [registerJoin_fst]
  simp only [registerJoin]
  split
  · left
    exact ⟨by assumption, rfl⟩
  · right
    rename_i other ho
    exact ⟨other, ho, rfl⟩

/-- Every run of the post-validation part of `Hub.handleJoin` either
rejects with `room full` or reaches the registration step with a
well-formed intermediate state holding at most one other occupant
record. -/
theorem joinBody_shape {s1 : ServerState} {room1 : Room} {c : Client}
    {msg : SignalMessage} (hwf : Wf s1) (hname : msg.room ≠ "")
    (hc : getClient s1 c.id = some c) (hcr : c.room = "")
    (hw : RoomWf s1 msg.room room1) :
    (2 ≤ connCount s1 room1.peers ∧
      joinBody s1 room1 c msg =
        ({ s1 with rooms := mapInsert s1.rooms msg.room room1 },
         [Event.sent c.id { type := "error", error := "room full" }])) ∨
    (∃ s2 room2, Wf s2 ∧ RoomWf s2 msg.room room2 ∧
      getClient s2 c.id = some c ∧ room2.peers.length ≤ 1 ∧
      joinBody s1 room1 c msg = registerJoin s2 room2 c msg) := by
  unfold joinBody
  by_cases hcc : 2 ≤ connCount s1 room1.peers
  · rw [if_pos hcc]
    exact Or.inl ⟨hcc, rfl⟩
  · rw [if_neg hcc]
    right
    by_cases hg : connCount s1 room1.peers < 2 ∧ 2 ≤ room1.peers.length
    · rw [if_pos hg]
      rcases evictGrace_spec hw with ⟨hf, he⟩ |
        ⟨kv, peer, hf, hmem, hgc, hdisc, hproom, hkv1, he⟩
      · exfalso
        have hall : ∀ kv ∈ room1.peers, (fun kv =>
            match getClient s1 kv.2 with
            | some p => decide (p.disconnectedAt = 0)
            | none => false) kv = true := by
          intro kv hkv
          have hnone := List.find?_eq_none.mp hf kv hkv
          obtain ⟨_, cp, hcp, _⟩ := hw.2.2.2.1 kv hkv
          rw [hcp] at hnone
          show (match getClient s1 kv.2 with
            | some p => decide (p.disconnectedAt = 0)
            | none => false) = true
          rw [hcp]
          simpa using hnone
        have hceq : connCount s1 room1.peers = room1.peers.length := by
          unfold connCount
          exact List.filter_length_eq_length.mpr hall
        omega
      · rw [he]
        have hpid : peer.id = kv.2 := getClient_id hgc
        have hold : getClient s1
            ({ peer with timerArmed := false } : Client).id = some peer := by
          show getClient s1 peer.id = some peer
          rw [hpid]
          exact hgc
        have hcne : c.id ≠ ({ peer with timerArmed := false} : Client).id := by
          show c.id ≠ peer.id
          intro hx
          rw [hpid] at hx
          rw [hx, hgc] at hc
          rw [Option.some_inj] at hc
          rw [hc] at hproom
          rw [hcr] at hproom
          exact hname hproom.symm
        refine ⟨_, _, wf_setClient_core hwf hold rfl rfl, ?_,
          by rw [getClient_setClient_ne hcne]; exact hc, ?_, rfl⟩
        · apply roomWf_of_coreAgrees (coreAgrees_setClient hold rfl rfl)
          apply roomWf_evict hw
          intro kv' hkv' hk1
          intro hx
          obtain ⟨cs, hcs1, hcs2, hcs3, hcs4⟩ := hw.2.2.2.2 kv' hkv'
          rw [hx, hkv1, hgc] at hcs1
          rw [Option.some_inj] at hcs1
          rw [← hcs1] at hcs2
          exact hk1 hcs2.symm
        · have hks : kv.1 ∈ mapKeys room1.peers :=
            List.mem_map_of_mem Prod.fst hmem
          have := length_erase_of_mem_keys hks
          have hle := hw.2.2.1
          show (mapErase room1.peers kv.1).length ≤ 1
          omega
    · rw [if_neg hg]
      have hA : connCount s1 room1.peers < 2 := by omega
      have hB : ¬ 2 ≤ room1.peers.length := fun hb => hg ⟨hA, hb⟩
      exact ⟨s1, room1, hwf, hw, hc,
        show room1.peers.length ≤ 1 by omega, rfl⟩

/-- Every run of `Hub.handleJoin` either replies to the requester with a
single error message, or reaches the registration step. -/
theorem handleJoin_shape {s : ServerState} {c : Client} {msg : SignalMessage}
    (hwf : Wf s) (hc : getClient s c.id = some c) (hcr : c.room = "") :
    (∃ err : SignalMessage, err.type = "error" ∧
      (handleJoin s c msg).2 = [Event.sent c.id err]) ∨
    (∃ s2 room2, Wf s2 ∧ RoomWf s2 msg.room room2 ∧
      getClient s2 c.id = some c ∧ room2.peers.length ≤ 1 ∧
      handleJoin s c msg = registerJoin s2 room2 c msg) := by
  unfold handleJoin
  by_cases h1 : msg.room = ""
  · rw [if_pos h1]
    exact Or.inl ⟨_, rfl, rfl⟩
  · rw [if_neg h1]
    by_cases h2 : msg.sessionID = ""
    · rw [if_pos h2]
      exact Or.inl ⟨_, rfl, rfl⟩
    · rw [if_neg h2]
      cases hlk : mapLookup s.rooms msg.room with
      | some room0 =>
        have hgr : getOrCreateRoom s.rooms msg.room = (s.rooms, room0) := by
          unfold getOrCreateRoom
          rw [hlk]
        rw [hgr]
        have hw0 : RoomWf s msg.room room0 :=
          (hwf.2.2.2 (msg.room, room0) (mapLookup_mem hlk)).2
        show (∃ err : SignalMessage, err.type = "error" ∧
            (joinBody (evictSession s room0 msg.sessionID).1
              (evictSession s room0 msg.sessionID).2 c msg).2 =
              [Event.sent c.id err]) ∨
          (∃ s2 room2, Wf s2 ∧ RoomWf s2 msg.room room2 ∧
            getClient s2 c.id = some c ∧ room2.peers.length ≤ 1 ∧
            joinBody (evictSession s room0 msg.sessionID).1
              (evictSession s room0 msg.sessionID).2 c msg =
              registerJoin s2 room2 c msg)
        rcases evictSession_spec hw0 msg.sessionID with ⟨_, he⟩ |
          ⟨existing, hslk, hex, hexr, hexs, hexp, he⟩
        · rw [he]
          rcases joinBody_shape hwf h1 hc hcr hw0 with ⟨_, hb⟩ | hb
          · rw [hb]
            exact Or.inl ⟨_, rfl, rfl⟩
          · exact Or.inr hb
        · rw [he]
          have hold : getClient s
              ({ existing with timerArmed := false } : Client).id =
              some existing := hex
          have hcne : c.id ≠
              ({ existing with timerArmed := false } : Client).id := by
            show c.id ≠ existing.id
            intro hx
            rw [hx, hex] at hc
            rw [Option.some_inj] at hc
            rw [hc] at hexr
            rw [hcr] at hexr
            exact h1 hexr.symm
          have hwf1 : Wf (setClient s { existing with timerArmed := false }) :=
            wf_setClient_core hwf hold rfl rfl
          have hc1 : getClient (setClient s
              { existing with timerArmed := false }) c.id = some c := by
            rw [getClient_setClient_ne hcne]
            exact hc
          have hw1 : RoomWf (setClient s { existing with timerArmed := false })
              msg.room
              { peers := mapErase room0.peers existing.id,
                sessions := mapErase room0.sessions existing.sessionID } := by
            apply roomWf_of_coreAgrees (coreAgrees_setClient hold rfl rfl)
            apply roomWf_evict hw0
            intro kv' hkv' hk1
            intro hx
            obtain ⟨cs, hcs1, hcs2, hcs3, hcs4⟩ := hw0.2.2.2.2 kv' hkv'
            rw [hx, hex] at hcs1
            rw [Option.some_inj] at hcs1
            rw [← hcs1] at hcs2
            exact hk1 hcs2.symm
          rcases joinBody_shape hwf1 h1 hc1 hcr hw1 with ⟨_, hb⟩ | hb
          · rw [hb]
            exact Or.inl ⟨_, rfl, rfl⟩
          · exact Or.inr hb
      | none =>
        have hgr : getOrCreateRoom s.rooms msg.room =
            (mapInsert s.rooms msg.room { peers := [], sessions := [] },
             { peers := [], sessions := [] }) := by
          unfold getOrCreateRoom
          rw [hlk]
        rw [hgr]
        have hwf0 : Wf { s with
            rooms := mapInsert s.rooms msg.room
              { peers := [], sessions := [] } } :=
          wf_insertRoom hwf h1 (roomWf_empty s msg.room)
        show (∃ err : SignalMessage, err.type = "error" ∧
            (joinBody (ServerState.mk s.clients
                (mapInsert s.rooms msg.room (Room.mk [] [])) s.closed s.clock)
              (Room.mk [] []) c msg).2 =
              [Event.sent c.id err]) ∨
          (∃ s2 room2, Wf s2 ∧ RoomWf s2 msg.room room2 ∧
            getClient s2 c.id = some c ∧ room2.peers.length ≤ 1 ∧
            joinBody (ServerState.mk s.clients
                (mapInsert s.rooms msg.room (Room.mk [] [])) s.closed s.clock)
              (Room.mk [] []) c msg =
              registerJoin s2 room2 c msg)
        rcases joinBody_shape hwf0 h1 hc hcr (roomWf_empty _ msg.room) with
          ⟨_, hb⟩ | hb
        · rw [hb]
          exact Or.inl ⟨_, rfl, rfl⟩
        · exact Or.inr hb

theorem registerJoin_snd_shape (s : ServerState) (room : Room) (c : Client)
    (msg : SignalMessage) :
    ∃ tail, (registerJoin s room c msg).2 =
      Event.sent c.id { type := "joined", room := msg.room, clientID := c.id } ::
      Event.registered msg.room c.id msg.sessionID :: tail := by
  rcases registerJoin_cases s room c msg with ⟨_, h⟩ | ⟨other, _, h⟩
  · exact ⟨_, h⟩
  · exact ⟨_, h⟩

/-- A join whose session identity already has a record in the room
always reaches registration: the prior record is evicted (timer
stopped, removed from both indices) and the flow continues with
`registerJoin` on the reduced room. -/
theorem handleJoin_rejoin {s : ServerState} {c : Client} {msg : SignalMessage}
    {room0 : Room} {p : String}
    (hwf : Wf s) (_hc : getClient s c.id = some c) (_hcr : c.room = "")
    (hm1 : ¬ msg.room = "") (hm2 : ¬ msg.sessionID = "")
    (hR : mapLookup s.rooms msg.room = some room0)
    (hS : mapLookup room0.sessions msg.sessionID = some p) :
    ∃ existing, p = existing.id ∧ getClient s p = some existing ∧
      existing.room = msg.room ∧ existing.sessionID = msg.sessionID ∧
      (mapErase room0.peers existing.id).length ≤ 1 ∧
      handleJoin s c msg =
        registerJoin (setClient s { existing with timerArmed := false })
          { peers := mapErase room0.peers existing.id,
            sessions := mapErase room0.sessions existing.sessionID } c msg := by
  have hw0 : RoomWf s msg.room room0 :=
    (hwf.2.2.2 (msg.room, room0) (mapLookup_mem hR)).2
  rcases evictSession_spec hw0 msg.sessionID with ⟨hnone, _⟩ |
    ⟨existing, hslk, hex, hexr, hexs, hexp, he⟩
  · rw [hnone] at hS
    exact absurd hS (by simp)
  · have hpe : p = existing.id := by
      rw [hS] at hslk
      rw [Option.some_inj] at hslk
      exact hslk

    have hlen1 : (mapErase room0.peers existing.id).length ≤ 1 := by
      have hks : existing.id ∈ mapKeys room0.peers :=
        List.mem_map_of_mem Prod.fst hexp
      have h2 := length_erase_of_mem_keys hks
      have h3 := hw0.2.2.1
      omega
    refine ⟨existing, hpe, by rw [hpe]; exact hex, hexr, hexs, hlen1, ?_⟩
    unfold handleJoin
    rw [if_neg hm1, if_neg hm2]
    have hgr : getOrCreateRoom s.rooms msg.room = (s.rooms, room0) := by
      unfold getOrCreateRoom
      rw [hR]
    rw [hgr]
    show joinBody (evictSession s room0 msg.sessionID).1
      (evictSession s room0 msg.sessionID).2 c msg = _
    rw [he]
    unfold joinBody
    have hcc : connCount (setClient s { existing with timerArmed := false })
        (mapErase room0.peers existing.id) ≤ 1 := by
      unfold connCount
      exact le_trans (List.length_filter_le _ _) hlen1
    rw [if_neg (show ¬ 2 ≤ connCount
      (setClient s { existing with timerArmed := false })
      (mapErase room0.peers existing.id) by omega)]
    rw [if_neg (by
      intro hand
      have h2 : 2 ≤ (mapErase room0.peers existing.id).length := hand.2
      omega)]

/-! ### Claims -/

/-- C1: for every sequence of operations on the server starting from
the empty state (joins, relays, disconnects, grace-timer finalizes),
every room's peer index holds at most two occupant records, and at most
two records whose disconnect timestamp is zero (connected) at once. -/
theorem claim_C1 (ops : List Op) (name : String) (room : Room)
    (h : mapLookup (runOps initState ops).1.rooms name = some room) :
    room.peers.length ≤ 2 ∧
    connCount (runOps initState ops).1 room.peers ≤ 2 := by
  have hwf := wf_runOps wf_initState ops
  have hr := (hwf.2.2.2 (name, room) (mapLookup_mem h)).2
  refine ⟨hr.2.2.1, ?_⟩
  unfold connCount
  exact le_trans (List.length_filter_le _ _) hr.2.2.1

theorem claim_C1_witness :
    (mapLookup (runOps initState [Op.connect "a",
        Op.message "a" { type := "join", room := "r", sessionID := "s1" }]).1.rooms
      "r" = some { peers := [("a", "a")], sessions := [("s1", "a")] }) ∧
    (({ peers := [("a", "a")], sessions := [("s1", "a")] } : Room).peers.length ≤ 2 ∧
      connCount (runOps initState [Op.connect "a",
        Op.message "a" { type := "join", room := "r", sessionID := "s1" }]).1
        ({ peers := [("a", "a")], sessions := [("s1", "a")] } : Room).peers ≤ 2) :=
  ⟨by decide, claim_C1 [Op.connect "a",
    Op.message "a" { type := "join", room := "r", sessionID := "s1" }] "r"
    { peers := [("a", "a")], sessions := [("s1", "a")] } (by decide)⟩

/-- The relay either drops the message or forwards a single copy whose
sender field has been overwritten with the caller's connection id. -/
theorem relay_sent_form (s : ServerState) (c : Client) (msg : SignalMessage) :
    relay s c msg = [] ∨
    ∃ dst tgt, relay s c msg =
      [Event.sent dst { msg with fromID := c.id, targetID := tgt }] := by
  unfold relay
  cases hlk : mapLookup s.rooms c.room with
  | none => exact Or.inl rfl
  | some room =>
    dsimp only
    by_cases ht : msg.targetID = ""
    · rw [if_pos ht]
      cases ho : otherConnectedPeer s room c.id with
      | none =>
        dsimp only
        rw [if_pos ht]
        exact Or.inl rfl
      | some other =>
        dsimp only
        by_cases hoi : other.id = ""
        · rw [if_pos hoi]
          exact Or.inl rfl
        · rw [if_neg hoi]
          cases hpl : mapLookup room.peers other.id with
          | none => exact Or.inl rfl
          | some p => exact Or.inr ⟨p, other.id, rfl⟩
    · rw [if_neg ht]
      dsimp only
      rw [if_neg ht]
      cases hpl : mapLookup room.peers msg.targetID with
      | none => exact Or.inl rfl
      | some p =>
        right
        refine ⟨p, msg.targetID, ?_⟩
        show [Event.sent p { msg with fromID := c.id }] = _
        rfl

/-- C6: every payload message forwarded by the relay carries the
server-assigned connection identity of the sender in `fromId`,
regardless of any client-supplied value. -/
theorem claim_C6 {s : ServerState} {c : Client} {msg : SignalMessage}
    {dst : String} {m : SignalMessage}
    (h : Event.sent dst m ∈ relay s c msg) : m.fromID = c.id := by
  rcases relay_sent_form s c msg with hr | ⟨dst', tgt, hr⟩
  · rw [hr] at h
    simp at h
  · rw [hr] at h
    simp only [List.mem_singleton] at h
    have hm : m = { msg with fromID := c.id, targetID := tgt } := by
      injection h with h1 h2
    rw [hm]

theorem claim_C6_witness :
    (Event.sent "a"
        { type := "offer", sdp := "x", fromID := "b", targetID := "a" } ∈
      relay
        (ServerState.mk
          [Client.mk "a" "s1" "r" 0 false, Client.mk "b" "s2" "r" 0 false]
          [("r", Room.mk [("a", "a"), ("b", "b")] [("s1", "a"), ("s2", "b")])]
          [] 1)
        (Client.mk "b" "s2" "r" 0 false)
        { type := "offer", sdp := "x", fromID := "spoofed" }) ∧
    ({ type := "offer", sdp := "x", fromID := "b",
       targetID := "a" } : SignalMessage).fromID =
      (Client.mk "b" "s2" "r" 0 false).id :=
  ⟨by decide,
    @claim_C6
      (ServerState.mk
        [Client.mk "a" "s1" "r" 0 false, Client.mk "b" "s2" "r" 0 false]
        [("r", Room.mk [("a", "a"), ("b", "b")] [("s1", "a"), ("s2", "b")])]
        [] 1)
      (Client.mk "b" "s2" "r" 0 false)
      { type := "offer", sdp := "x", fromID := "spoofed" }
      "a"
      { type := "offer", sdp := "x", fromID := "b", targetID := "a" }
      (by decide)⟩

/-- C10: a relayed payload message carrying an explicit target
connection identity is delivered to whichever occupant record the
room's peer index holds under that key — the target's disconnect state
is not consulted, and the sender itself is a legitimate target; the
restriction to the other connected occupant applies only to messages
with no target. -/
theorem claim_C10 {s : ServerState} {c : Client} {msg : SignalMessage}
    {room : Room} {p : String}
    (hR : mapLookup s.rooms c.room = some room)
    (htgt : ¬ msg.targetID = "")
    (hP : mapLookup room.peers msg.targetID = some p) :
    relay s c msg = [Event.sent p { msg with fromID := c.id }] := by
  unfold relay
  rw [hR]
  dsimp only
  rw [if_neg htgt]
  dsimp only
  rw [if_neg htgt, hP]

theorem claim_C10_witness :
    (mapLookup ([("r", Room.mk [("a", "a"), ("b", "b")]
        [("s1", "a"), ("s2", "b")])] : List (String × Room)) "r" =
      some (Room.mk [("a", "a"), ("b", "b")] [("s1", "a"), ("s2", "b")])) ∧
    (¬ ("b" : String) = "") ∧
    (mapLookup (Room.mk [("a", "a"), ("b", "b")]
        [("s1", "a"), ("s2", "b")]).peers "b" = some "b") ∧
    relay
      (ServerState.mk
        [Client.mk "a" "s1" "r" 0 false, Client.mk "b" "s2" "r" 7 true]
        [("r", Room.mk [("a", "a"), ("b", "b")] [("s1", "a"), ("s2", "b")])]
        [] 8)
      (Client.mk "a" "s1" "r" 0 false)
      { type := "ice", candidate := "cand", targetID := "b" } =
      [Event.sent "b" { type := "ice", candidate := "cand", targetID := "b", fromID := "a" }] :=
  ⟨by decide, by decide, by decide,
    @claim_C10
      (ServerState.mk
        [Client.mk "a" "s1" "r" 0 false, Client.mk "b" "s2" "r" 7 true]
        [("r", Room.mk [("a", "a"), ("b", "b")] [("s1", "a"), ("s2", "b")])]
        [] 8)
      (Client.mk "a" "s1" "r" 0 false)
      { type := "ice", candidate := "cand", targetID := "b" }
      (Room.mk [("a", "a"), ("b", "b")] [("s1", "a"), ("s2", "b")])
      "b"
      (by decide) (by decide) (by decide)⟩

/-- C8: a relayed payload message with no resolvable recipient — no
target given and no other connected occupant, or an explicit target
absent from the peer index — is dropped: nothing is sent to anyone
(in particular not to the sender) and the server state is unchanged. -/
theorem claim_C8 {s : ServerState} {cid : String} {c : Client}
    {msg : SignalMessage}
    (hg : getClient s cid = some c) (hcl : s.closed.contains cid = false)
    (hcr : ¬ c.room = "")
    (ht : msg.type = "offer" ∨ msg.type = "answer" ∨ msg.type = "ice")
    (hunr : ∀ room, mapLookup s.rooms c.room = some room →
      ((msg.targetID = "" ∧ otherConnectedPeer s room c.id = none) ∨
       (¬ msg.targetID = "" ∧ mapLookup room.peers msg.targetID = none))) :
    applyOp s (Op.message cid msg) = (s, []) := by
  rw [applyOp_relay hg hcl hcr ht]
  suffices hrel : relay s c msg = [] by rw [hrel]
  unfold relay
  cases hlk : mapLookup s.rooms c.room with
  | none => rfl
  | some room =>
    dsimp only
    rcases hunr room hlk with ⟨he, ho⟩ | ⟨he, hp⟩
    · rw [if_pos he, ho]
      dsimp only
      rw [if_pos he]
    · rw [if_neg he]
      dsimp only
      rw [if_neg he, hp]

theorem claim_C8_witness :
    (getClient
        (ServerState.mk [Client.mk "a" "s1" "r" 0 false]
          [("r", Room.mk [("a", "a")] [("s1", "a")])] [] 1) "a" =
      some (Client.mk "a" "s1" "r" 0 false)) ∧
    applyOp
      (ServerState.mk [Client.mk "a" "s1" "r" 0 false]
        [("r", Room.mk [("a", "a")] [("s1", "a")])] [] 1)
      (Op.message "a" { type := "offer", sdp := "x" }) =
      (ServerState.mk [Client.mk "a" "s1" "r" 0 false]
        [("r", Room.mk [("a", "a")] [("s1", "a")])] [] 1, []) :=
  ⟨by decide,
    @claim_C8
      (ServerState.mk [Client.mk "a" "s1" "r" 0 false]
        [("r", Room.mk [("a", "a")] [("s1", "a")])] [] 1)
      "a"
      (Client.mk "a" "s1" "r" 0 false)
      { type := "offer", sdp := "x" }
      (by decide) (by decide) (by decide)
      (Or.inl (by decide))
      (by
        intro room hroom
        left
        rw [show room = Room.mk [("a", "a")] [("s1", "a")] from by
          rw [show (mapLookup [("r", Room.mk [("a", "a")] [("s1", "a")])] "r") =
              some (Room.mk [("a", "a")] [("s1", "a")]) from by decide] at hroom
          exact (Option.some_inj.mp hroom).symm]
        exact ⟨rfl, by decide⟩)⟩

/-- C2: a join request whose session identity already has an occupant
record in the room (connected or mid-grace) always succeeds: the
`joined` acknowledgment is sent, the prior record's grace timer is
cancelled, the prior record is removed from both room indices, and the
new endpoint is registered in its place. -/
theorem claim_C2 {s : ServerState} {cid : String} {c : Client}
    {msg : SignalMessage} {room0 : Room} {p : String}
    (hwf : Wf s) (hg : getClient s cid = some c)
    (hcl : s.closed.contains cid = false) (hcr : c.room = "")
    (ht : msg.type = "join") (hm1 : ¬ msg.room = "")
    (hm2 : ¬ msg.sessionID = "")
    (hR : mapLookup s.rooms msg.room = some room0)
    (hS : mapLookup room0.sessions msg.sessionID = some p) :
    Event.sent cid { type := "joined", room := msg.room, clientID := cid } ∈
      (applyOp s (Op.message cid msg)).2 ∧
    (∃ pc, getClient (applyOp s (Op.message cid msg)).1 p = some pc ∧
      pc.timerArmed = false) ∧
    (∃ room', mapLookup (applyOp s (Op.message cid msg)).1.rooms msg.room =
        some room' ∧
      mapLookup room'.peers p = none ∧
      mapLookup room'.peers cid = some cid ∧
      mapLookup room'.sessions msg.sessionID = some cid) := by
  have hcid : c.id = cid := getClient_id hg
  subst hcid
  rw [applyOp_join hg hcl hcr ht]
  have hw0 : RoomWf s msg.room room0 :=
    (hwf.2.2.2 (msg.room, room0) (mapLookup_mem hR)).2
  obtain ⟨existing, hpe, hpex, hexr, hexs, hlen1, heq⟩ :=
    handleJoin_rejoin hwf hg hcr hm1 hm2 hR hS
  subst hpe
  have hEne : existing.id ≠ c.id := by
    intro hx
    rw [hx, hg] at hpex
    rw [Option.some_inj] at hpex
    rw [← hpex] at hexr
    rw [hcr] at hexr
    exact hm1 hexr.symm
  rw [heq, registerJoin_fst]
  refine ⟨?_, ?_, ?_⟩
  · obtain ⟨tail, htr⟩ := registerJoin_snd_shape
      (setClient s { existing with timerArmed := false })
      { peers := mapErase room0.peers existing.id,
        sessions := mapErase room0.sessions existing.sessionID } c msg
    rw [htr]
    exact List.mem_cons_self _ _
  · refine ⟨{ existing with timerArmed := false }, ?_, rfl⟩
    show getClient
      (setClient (setClient s { existing with timerArmed := false })
        { c with room := msg.room, sessionID := msg.sessionID })
      existing.id = some { existing with timerArmed := false }
    rw [getClient_setClient_ne
      (show existing.id ≠
        ({ c with room := msg.room, sessionID := msg.sessionID } : Client).id
        from hEne)]
    exact getClient_setClient_self hpex rfl
  · refine ⟨Room.mk
      (mapInsert (mapErase room0.peers existing.id) c.id c.id)
      (mapInsert (mapErase room0.sessions existing.sessionID)
        msg.sessionID c.id), ?_, ?_, ?_, ?_⟩
    · show mapLookup (mapInsert s.rooms msg.room
        (Room.mk (mapInsert (mapErase room0.peers existing.id) c.id c.id)
          (mapInsert (mapErase room0.sessions existing.sessionID)
            msg.sessionID c.id))) msg.room = some _
      exact mapLookup_insert_self _ _ _
    · show mapLookup (mapInsert (mapErase room0.peers existing.id) c.id c.id)
        existing.id = none
      rw [mapLookup_insert_ne _ hEne]
      exact mapLookup_erase_self hw0.1
    · exact mapLookup_insert_self _ _ _
    · exact mapLookup_insert_self _ _ _

theorem claim_C2_witness :
    (getClient
        (runOps initState [Op.connect "a",
          Op.message "a" { type := "join", room := "r", sessionID := "s1" },
          Op.disconnect "a", Op.connect "a2"]).1 "a2" =
      some (Client.mk "a2" "" "" 0 false)) ∧
    (mapLookup
        (runOps initState [Op.connect "a",
          Op.message "a" { type := "join", room := "r", sessionID := "s1" },
          Op.disconnect "a", Op.connect "a2"]).1.rooms "r" =
      some (Room.mk [("a", "a")] [("s1", "a")])) ∧
    (Event.sent "a2" { type := "joined", room := "r", clientID := "a2" } ∈
      (applyOp
        (runOps initState [Op.connect "a",
          Op.message "a" { type := "join", room := "r", sessionID := "s1" },
          Op.disconnect "a", Op.connect "a2"]).1
        (Op.message "a2" { type := "join", room := "r", sessionID := "s1" })).2 ∧
    (∃ pc, getClient (applyOp
        (runOps initState [Op.connect "a",
          Op.message "a" { type := "join", room := "r", sessionID := "s1" },
          Op.disconnect "a", Op.connect "a2"]).1
        (Op.message "a2" { type := "join", room := "r", sessionID := "s1" })).1
        "a" = some pc ∧ pc.timerArmed = false) ∧
    (∃ room', mapLookup (applyOp
        (runOps initState [Op.connect "a",
          Op.message "a" { type := "join", room := "r", sessionID := "s1" },
          Op.disconnect "a", Op.connect "a2"]).1
        (Op.message "a2" { type := "join", room := "r", sessionID := "s1" })).1.rooms
        "r" = some room' ∧
      mapLookup room'.peers "a" = none ∧
      mapLookup room'.peers "a2" = some "a2" ∧
      mapLookup room'.sessions "s1" = some "a2")) :=
  ⟨by decide, by decide,
    @claim_C2
      ((runOps initState [Op.connect "a",
        Op.message "a" { type := "join", room := "r", sessionID := "s1" },
        Op.disconnect "a", Op.connect "a2"]).1)
      "a2"
      (Client.mk "a2" "" "" 0 false)
      { type := "join", room := "r", sessionID := "s1" }
      (Room.mk [("a", "a")] [("s1", "a")])
      "a"
      (wf_runOps wf_initState _)
      (by decide) (by decide) (by decide) (by decide)
      (by decide) (by decide) (by decide) (by decide)⟩

/-- C3: whenever a join completes a pairing, the trace's `peer-joined`
messages are exactly one to the pre-existing occupant with
`offerer = false` followed by one to the joiner with `offerer = true`;
the earlier occupant is never marked offering. -/
theorem claim_C3 {s : ServerState} {c : Client} {msg : SignalMessage}
    (hwf : Wf s) (hc : getClient s c.id = some c) (hcr : c.room = "") :
    (handleJoin s c msg).2.filter isPeerJoined = [] ∨
    ∃ otherId, otherId ≠ c.id ∧
      (handleJoin s c msg).2.filter isPeerJoined =
        [Event.sent otherId
           { type := "peer-joined", clientID := c.id, offerer := false },
         Event.sent c.id
           { type := "peer-joined", clientID := otherId, offerer := true }] := by
  rcases handleJoin_shape hwf hc hcr with ⟨err, herr, htr⟩ |
    ⟨s2, room2, hwf2, hw2, hc2, hlen2, heq⟩
  · left
    rw [htr]
    simp [isPeerJoined, herr]
  · rw [heq]
    rcases registerJoin_cases s2 room2 c msg with ⟨ho, htr⟩ | ⟨other, ho, htr⟩
    · left
      rw [htr]
      rfl
    · right
      have hkv3 : ∀ kv ∈ (Room.mk (mapInsert room2.peers c.id c.id)
          (mapInsert room2.sessions msg.sessionID c.id)).peers,
          kv.1 = kv.2 := by
        intro kv hkv
        rcases mem_of_mem_insert hkv with he | he
        · rw [he]
        · exact (hw2.2.2.2.1 kv he).1
      refine ⟨other.id, (otherConnectedPeer_spec hkv3 ho).1, ?_⟩
      rw [htr]
      rfl

theorem claim_C3_witness :
    (getClient
        (runOps initState [Op.connect "a",
          Op.message "a" { type := "join", room := "r", sessionID := "s1" },
          Op.connect "b"]).1
        (Client.mk "b" "" "" 0 false).id = some (Client.mk "b" "" "" 0 false)) ∧
    ((handleJoin
        (runOps initState [Op.connect "a",
          Op.message "a" { type := "join", room := "r", sessionID := "s1" },
          Op.connect "b"]).1
        (Client.mk "b" "" "" 0 false)
        { type := "join", room := "r", sessionID := "s2" }).2.filter
        isPeerJoined = [] ∨
      ∃ otherId, otherId ≠ (Client.mk "b" "" "" 0 false).id ∧
        (handleJoin
          (runOps initState [Op.connect "a",
            Op.message "a" { type := "join", room := "r", sessionID := "s1" },
            Op.connect "b"]).1
          (Client.mk "b" "" "" 0 false)
          { type := "join", room := "r", sessionID := "s2" }).2.filter
          isPeerJoined =
          [Event.sent otherId { type := "peer-joined", clientID := (Client.mk "b" "" "" 0 false).id, offerer := false },
           Event.sent (Client.mk "b" "" "" 0 false).id { type := "peer-joined", clientID := otherId, offerer := true }]) :=
  ⟨by decide,
    @claim_C3
      ((runOps initState [Op.connect "a",
        Op.message "a" { type := "join", room := "r", sessionID := "s1" },
        Op.connect "b"]).1)
      (Client.mk "b" "" "" 0 false)
      { type := "join", room := "r", sessionID := "s2" }
      (wf_runOps wf_initState _) (by decide) rfl⟩

/-- C4: the grace finalize removes the occupant from both indices only
when a record still exists under the connection identity with the same
session identity and a non-zero disconnect timestamp; if any re-check
fails the state is left exactly unchanged; when the removal empties the
room's occupant set the room is deleted from the registry, otherwise
the room survives with both entries gone. -/
theorem claim_C4 (s : ServerState) (hwf : Wf s)
    (roomID clientID sessionID : String) :
    ((¬ ∃ room p peer, mapLookup s.rooms roomID = some room ∧
        mapLookup room.peers clientID = some p ∧
        getClient s p = some peer ∧ peer.sessionID = sessionID ∧
        peer.disconnectedAt ≠ 0) →
      finalizeDisconnect s roomID clientID sessionID = s) ∧
    (∀ room p peer, mapLookup s.rooms roomID = some room →
      mapLookup room.peers clientID = some p →
      getClient s p = some peer → peer.sessionID = sessionID →
      peer.disconnectedAt ≠ 0 →
      ((room.peers.length = 1 →
        mapLookup (finalizeDisconnect s roomID clientID sessionID).rooms
          roomID = none) ∧
       (room.peers.length ≠ 1 →
        ∃ room', mapLookup (finalizeDisconnect s roomID clientID
            sessionID).rooms roomID = some room' ∧
          mapLookup room'.peers clientID = none ∧
          mapLookup room'.sessions sessionID = none))) := by
  constructor
  · intro hne
    unfold finalizeDisconnect
    split
    · rfl
    · rename_i room hlk
      split
      · rfl
      · rename_i p hpl
        split
        · rfl
        · rename_i peer hgc
          split
          · rename_i h1
            split
            · rfl
            · rename_i h2
              exact absurd ⟨room, p, peer, hlk, hpl, hgc, h1, h2⟩ hne
          · rfl
  · intro room p peer hlk hpl hgc h1 h2
    have hw0 : RoomWf s roomID room :=
      (hwf.2.2.2 (roomID, room) (mapLookup_mem hlk)).2
    have hkn : KeysNodup room.peers := hw0.1
    have hkns : KeysNodup room.sessions := hw0.2.1
    have hmemK : clientID ∈ mapKeys room.peers := mem_keys_of_mapLookup_some hpl
    have hlenE := length_erase_of_mem_keys hmemK
    unfold finalizeDisconnect
    simp only [hlk, hpl, hgc]
    rw [if_pos h1, if_neg h2]
    dsimp only
    constructor
    · intro hlen1
      rw [if_pos (show (mapErase room.peers clientID).isEmpty = true by
        rw [List.isEmpty_iff_length_eq_zero]
        omega)]
      exact mapLookup_erase_self hwf.1
    · intro hlen1
      rw [if_neg (show ¬ (mapErase room.peers clientID).isEmpty = true by
        rw [List.isEmpty_iff_length_eq_zero]
        omega)]
      refine ⟨_, mapLookup_insert_self _ _ _, ?_, ?_⟩
      · exact mapLookup_erase_self hkn
      · exact mapLookup_erase_self hkns

theorem claim_C4_witness :
    Wf (runOps initState [Op.connect "a",
      Op.message "a" { type := "join", room := "g", sessionID := "s1" },
      Op.disconnect "a"]).1 ∧
    mapLookup (finalizeDisconnect
      (runOps initState [Op.connect "a",
        Op.message "a" { type := "join", room := "g", sessionID := "s1" },
        Op.disconnect "a"]).1 "g" "a" "s1").rooms "g" = none :=
  ⟨wf_runOps wf_initState _,
    ((claim_C4 (runOps initState [Op.connect "a",
        Op.message "a" { type := "join", room := "g", sessionID := "s1" },
        Op.disconnect "a"]).1 (wf_runOps wf_initState _) "g" "a" "s1").2
      (Room.mk [("a", "a")] [("s1", "a")]) "a"
      (Client.mk "a" "s1" "g" 1 true)
      (by decide) (by decide) (by decide) (by decide) (by decide)).1
      (by decide)⟩

/-- C5: a join by a session distinct from both occupants of a room that
already has two connected occupants is rejected with the error text
`room full`; the server state (registry, room indices, the joiner's own
bindings, the closed set) is returned exactly unchanged, so the
connection also stays open. -/
theorem claim_C5 {s : ServerState} {cid : String} {c : Client}
    {msg : SignalMessage} {room : Room}
    (hwf : Wf s) (hg : getClient s cid = some c)
    (hcl : s.closed.contains cid = false) (hcr : c.room = "")
    (ht : msg.type = "join") (hm1 : ¬ msg.room = "")
    (hm2 : ¬ msg.sessionID = "")
    (hR : mapLookup s.rooms msg.room = some room)
    (hcc : connCount s room.peers = 2)
    (hdist : ∀ kv ∈ room.peers, ∀ cl, getClient s kv.2 = some cl →
      cl.sessionID ≠ msg.sessionID) :
    applyOp s (Op.message cid msg) =
      (s, [Event.sent cid { type := "error", error := "room full" }]) := by
  have hcid : c.id = cid := getClient_id hg
  subst hcid
  rw [applyOp_join hg hcl hcr ht]
  unfold handleJoin
  rw [if_neg hm1, if_neg hm2]
  have hgr : getOrCreateRoom s.rooms msg.room = (s.rooms, room) := by
    unfold getOrCreateRoom
    rw [hR]
  rw [hgr]
  have hw0 : RoomWf s msg.room room :=
    (hwf.2.2.2 (msg.room, room) (mapLookup_mem hR)).2
  have hsn : mapLookup room.sessions msg.sessionID = none := by
    cases hq : mapLookup room.sessions msg.sessionID with
    | none => rfl
    | some p =>
      obtain ⟨cl, hc1, hc2, hc3, hc4⟩ :=
        hw0.2.2.2.2 (msg.sessionID, p) (mapLookup_mem hq)
      exact absurd hc2 (hdist (p, p) hc4 cl hc1)
  have hev : evictSession s room msg.sessionID = (s, room) := by
    unfold evictSession
    rw [hsn]
  show joinBody (evictSession s room msg.sessionID).1
    (evictSession s room msg.sessionID).2 c msg = _
  rw [hev]
  show joinBody s room c msg = _
  unfold joinBody
  rw [if_pos (show 2 ≤ connCount s room.peers by omega)]
  rw [mapInsert_self_of_lookup hR]

theorem claim_C5_witness :
    (getClient
        (runOps initState [Op.connect "a",
          Op.message "a" { type := "join", room := "beta", sessionID := "s1" },
          Op.connect "b",
          Op.message "b" { type := "join", room := "beta", sessionID := "s2" },
          Op.connect "c"]).1 "c" = some (Client.mk "c" "" "" 0 false)) ∧
    (connCount
        (runOps initState [Op.connect "a",
          Op.message "a" { type := "join", room := "beta", sessionID := "s1" },
          Op.connect "b",
          Op.message "b" { type := "join", room := "beta", sessionID := "s2" },
          Op.connect "c"]).1
        (Room.mk [("a", "a"), ("b", "b")] [("s1", "a"), ("s2", "b")]).peers
      = 2) ∧
    applyOp
      (runOps initState [Op.connect "a",
        Op.message "a" { type := "join", room := "beta", sessionID := "s1" },
        Op.connect "b",
        Op.message "b" { type := "join", room := "beta", sessionID := "s2" },
        Op.connect "c"]).1
      (Op.message "c" { type := "join", room := "beta", sessionID := "s3" }) =
      ((runOps initState [Op.connect "a",
        Op.message "a" { type := "join", room := "beta", sessionID := "s1" },
        Op.connect "b",
        Op.message "b" { type := "join", room := "beta", sessionID := "s2" },
        Op.connect "c"]).1,
       [Event.sent "c" { type := "error", error := "room full" }]) :=
  ⟨by decide, by decide,
    @claim_C5
      ((runOps initState [Op.connect "a",
        Op.message "a" { type := "join", room := "beta", sessionID := "s1" },
        Op.connect "b",
        Op.message "b" { type := "join", room := "beta", sessionID := "s2" },
        Op.connect "c"]).1)
      "c"
      (Client.mk "c" "" "" 0 false)
      { type := "join", room := "beta", sessionID := "s3" }
      (Room.mk [("a", "a"), ("b", "b")] [("s1", "a"), ("s2", "b")])
      (wf_runOps wf_initState _)
      (by decide) (by decide) (by decide) (by decide) (by decide)
      (by decide) (by decide) (by decide)
      (by
        intro kv hkv cl hcl2
        fin_cases hkv <;>
          (first
            | (rw [show getClient (runOps initState [Op.connect "a",
                Op.message "a" { type := "join", room := "beta", sessionID := "s1" },
                Op.connect "b",
                Op.message "b" { type := "join", room := "beta", sessionID := "s2" },
                Op.connect "c"]).1 "a" =
                  some (Client.mk "a" "s1" "beta" 0 false) from by decide] at hcl2
               rw [Option.some_inj] at hcl2
               rw [← hcl2]
               decide)
            | (rw [show getClient (runOps initState [Op.connect "a",
                Op.message "a" { type := "join", room := "beta", sessionID := "s1" },
                Op.connect "b",
                Op.message "b" { type := "join", room := "beta", sessionID := "s2" },
                Op.connect "c"]).1 "b" =
                  some (Client.mk "b" "s2" "beta" 0 false) from by decide] at hcl2
               rw [Option.some_inj] at hcl2
               rw [← hcl2]
               decide)))⟩

/-- C7: when an occupant disconnects while another connected occupant
is in the room, that occupant is sent `peer-left` then `waiting`, as
adjacent events in that order, and — operations being serialized by the
Hub lock — both appear in the run's trace before the events of every
operation processed later, joins included. -/
theorem claim_C7 (l1 l2 : List Op) (cid : String) (c : Client)
    (room : Room) (o : Client)
    (hg : getClient (runOps initState l1).1 cid = some c)
    (hcl : (runOps initState l1).1.closed.contains cid = false)
    (hR : mapLookup (runOps initState l1).1.rooms c.room = some room)
    (hP : mapLookup room.peers cid = some cid)
    (hO : otherConnectedPeer (runOps initState l1).1 room cid = some o) :
    (runOps initState (l1 ++ Op.disconnect cid :: l2)).2 =
      (runOps initState l1).2 ++
      (Event.sent o.id { type := "peer-left", clientID := cid } ::
       Event.sent o.id { type := "waiting", status := "waiting" } ::
       (runOps (applyOp (runOps initState l1).1 (Op.disconnect cid)).1
         l2).2) := by
  have hcid : c.id = cid := getClient_id hg
  subst hcid
  have hwf := wf_runOps wf_initState l1
  have hw0 : RoomWf (runOps initState l1).1 c.room room :=
    (hwf.2.2.2 (c.room, room) (mapLookup_mem hR)).2
  have hkv : ∀ kv ∈ room.peers, kv.1 = kv.2 :=
    fun kv hkv => (hw0.2.2.2.1 kv hkv).1
  have hocp : otherConnectedPeer
      (ServerState.mk
        (setClient (runOps initState l1).1
          (Client.mk c.id c.sessionID c.room
            (runOps initState l1).1.clock false)).clients
        (setClient (runOps initState l1).1
          (Client.mk c.id c.sessionID c.room
            (runOps initState l1).1.clock false)).rooms
        (setClient (runOps initState l1).1
          (Client.mk c.id c.sessionID c.room
            (runOps initState l1).1.clock false)).closed
        ((runOps initState l1).1.clock + 1)) room c.id =
      otherConnectedPeer (runOps initState l1).1 room c.id :=
    otherConnectedPeer_setClient_excl hkv rfl
  have hEv : (handleDisconnect (runOps initState l1).1 c).2 =
      [Event.sent o.id { type := "peer-left", clientID := c.id },
       Event.sent o.id { type := "waiting", status := "waiting" }] := by
    unfold handleDisconnect
    simp only [hR, hP, if_true]
    rw [hocp, hO]
  rw [runOps_append]
  show (runOps initState l1).2 ++ (runOps (runOps initState l1).1
    (Op.disconnect c.id :: l2)).2 = _
  have hstep : runOps (runOps initState l1).1 (Op.disconnect c.id :: l2) =
      ((runOps (applyOp (runOps initState l1).1 (Op.disconnect c.id)).1 l2).1,
       (applyOp (runOps initState l1).1 (Op.disconnect c.id)).2 ++
       (runOps (applyOp (runOps initState l1).1 (Op.disconnect c.id)).1
         l2).2) := rfl
  rw [hstep]
  rw [applyOp_disconnect hg hcl]
  rw [hEv]
  rfl

theorem claim_C7_witness :
    (getClient (runOps initState [Op.connect "a",
        Op.message "a" { type := "join", room := "r", sessionID := "s1" },
        Op.connect "b",
        Op.message "b" { type := "join", room := "r", sessionID := "s2" }]).1
      "a" = some (Client.mk "a" "s1" "r" 0 false)) ∧
    (otherConnectedPeer (runOps initState [Op.connect "a",
        Op.message "a" { type := "join", room := "r", sessionID := "s1" },
        Op.connect "b",
        Op.message "b" { type := "join", room := "r", sessionID := "s2" }]).1
      (Room.mk [("a", "a"), ("b", "b")] [("s1", "a"), ("s2", "b")]) "a" =
      some (Client.mk "b" "s2" "r" 0 false)) ∧
    (runOps initState ([Op.connect "a",
        Op.message "a" { type := "join", room := "r", sessionID := "s1" },
        Op.connect "b",
        Op.message "b" { type := "join", room := "r", sessionID := "s2" }] ++
        Op.disconnect "a" :: [])).2 =
      (runOps initState [Op.connect "a",
        Op.message "a" { type := "join", room := "r", sessionID := "s1" },
        Op.connect "b",
        Op.message "b" { type := "join", room := "r", sessionID := "s2" }]).2 ++
      (Event.sent (Client.mk "b" "s2" "r" 0 false).id
        { type := "peer-left", clientID := "a" } ::
       Event.sent (Client.mk "b" "s2" "r" 0 false).id
        { type := "waiting", status := "waiting" } ::
       (runOps (applyOp (runOps initState [Op.connect "a",
          Op.message "a" { type := "join", room := "r", sessionID := "s1" },
          Op.connect "b",
          Op.message "b" { type := "join", room := "r", sessionID := "s2" }]).1
         (Op.disconnect "a")).1 []).2) :=
  ⟨by decide, by decide,
    claim_C7 [Op.connect "a",
      Op.message "a" { type := "join", room := "r", sessionID := "s1" },
      Op.connect "b",
      Op.message "b" { type := "join", room := "r", sessionID := "s2" }] []
      "a" (Client.mk "a" "s1" "r" 0 false)
      (Room.mk [("a", "a"), ("b", "b")] [("s1", "a"), ("s2", "b")])
      (Client.mk "b" "s2" "r" 0 false)
      (by decide) (by decide) (by decide) (by decide) (by decide)⟩

/-- C9 as stated is false on the code: in a successful join the
`joined` acknowledgment is enqueued (index 0 of the join's trace)
before the endpoint is registered in the room indices (index 1). -/
theorem claim_C9_counterexample :
    ¬ regBeforeAck "a" (runOps initState [Op.connect "a",
      Op.message "a" { type := "join", room := "r", sessionID := "s1" }]).2 := by
  intro h
  obtain ⟨i, hi, hlt⟩ := h 0 (by decide)
  rw [show (runOps initState [Op.connect "a",
      Op.message "a" { type := "join", room := "r", sessionID := "s1" }]).2.findIdx?
      (isRegEventFor "a") = some 1 from by decide] at hi
  rw [Option.some_inj] at hi
  omega

/-- C9 (amended): in every join that does not fail with an error, the
`joined` acknowledgment is enqueued first and the registration into
both indices happens immediately after it, inside the same atomic join
step — the spec's steps 4 and 5 occur in the opposite order, with no
other event between them. -/
theorem claim_C9_amended {s : ServerState} {c : Client} {msg : SignalMessage}
    (hwf : Wf s) (hc : getClient s c.id = some c) (hcr : c.room = "") :
    (∃ err : SignalMessage, err.type = "error" ∧
      (handleJoin s c msg).2 = [Event.sent c.id err]) ∨
    ∃ tail, (handleJoin s c msg).2 =
      Event.sent c.id { type := "joined", room := msg.room, clientID := c.id } ::
      Event.registered msg.room c.id msg.sessionID :: tail := by
  rcases handleJoin_shape hwf hc hcr with h | ⟨s2, room2, _, _, _, _, heq⟩
  · exact Or.inl h
  · right
    rw [heq]
    exact registerJoin_snd_shape _ _ _ _

theorem claim_C9_amended_witness :
    (getClient (runOps initState [Op.connect "a"]).1
      (Client.mk "a" "" "" 0 false).id = some (Client.mk "a" "" "" 0 false)) ∧
    ((∃ err : SignalMessage, err.type = "error" ∧
        (handleJoin (runOps initState [Op.connect "a"]).1
          (Client.mk "a" "" "" 0 false)
          { type := "join", room := "r", sessionID := "s1" }).2 =
          [Event.sent (Client.mk "a" "" "" 0 false).id err]) ∨
      ∃ tail, (handleJoin (runOps initState [Op.connect "a"]).1
          (Client.mk "a" "" "" 0 false)
          { type := "join", room := "r", sessionID := "s1" }).2 =
        Event.sent (Client.mk "a" "" "" 0 false).id
          { type := "joined", room := "r",
            clientID := (Client.mk "a" "" "" 0 false).id } ::
        Event.registered "r" (Client.mk "a" "" "" 0 false).id "s1" :: tail) :=
  ⟨by decide,
    @claim_C9_amended
      ((runOps initState [Op.connect "a"]).1)
      (Client.mk "a" "" "" 0 false)
      { type := "join", room := "r", sessionID := "s1" }
      (wf_runOps wf_initState _) (by decide) rfl⟩

end PeerSignal
